import Mathlib

/-!
Verification of the tool-call argument repair and streaming-rewrite pipeline
of the openclaw agent runtime.

The development is a shallow embedding of
`src/agents/tool-args-normalizer-wrapper.ts` (the stream wrapper with its
per-tool repair rules) and of the schema-driven normalization helpers
(`schemaDeepEqual`, `extractAliasesFromSchema`, `normalizeToolParamsFromSchema`,
`normalizeToolParams`) that it calls.

Modelling conventions:
* JSON-like values are the inductive `JValue`; JavaScript records
  (`Record<string, unknown>`) are ordered association lists
  `List (String × JValue)` with JavaScript object semantics:
  property assignment replaces the value at the first occurrence of the key
  (keeping its position) or appends a fresh key at the end, `delete` removes
  the key, and spread (`{ ...record }`) is the identity on the value level.
  Records decoded from JSON have pairwise distinct keys; the operations
  below agree with JavaScript on such records.
* `typeof x === "object"` is true for objects, arrays and `null`; every
  site in the source pairs it with a truthiness or non-null check, which
  `jsObjLike` (objects and arrays only) reflects.  Spreading an array
  produces an object keyed by decimal indices, which `jsObjLike` also
  reflects.
* Reference identity (`===`) on two distinct heap objects is modelled as
  `false`; on primitives it is value equality.  The `JSON.stringify`
  comparisons of the wrapper are modelled by structural equality
  (`JValue.beq`), which coincides with stringify-equality on the values
  involved (ordered fields, no `undefined`).
* In-place mutation of nested objects cannot be observed in the value-level
  model, so the browser act-kind wrapping step is additionally modelled over
  an explicit heap (`Heap`, `browserActWrapHeap`) in which a shallow copy
  shares the references of its nested objects, exactly as `{ ...record }`
  does in JavaScript.
* Logging calls (`logDebug`/`logWarn`) and the `fullText` accumulator feed
  diagnostics only and are dropped.
-/

/-- JSON-like runtime values (string, number, boolean, null, array, object). -/
inductive JValue where
  | str (s : String)
  | num (n : Int)
  | bool (b : Bool)
  | null
  | arr (xs : List JValue)
  | obj (fields : List (String × JValue))

mutual

/-- Structural equality on `JValue` (the model of `JSON.stringify` equality). -/
def JValue.beq : JValue → JValue → Bool
  | .str a, .str b => a == b
  | .num a, .num b => a == b
  | .bool a, .bool b => a == b
  | .null, .null => true
  | .arr xs, .arr ys => beqL xs ys
  | .obj fs, .obj gs => beqO fs gs
  | _, _ => false

/-- Structural equality on lists of values. -/
def beqL : List JValue → List JValue → Bool
  | [], [] => true
  | x :: xs, y :: ys => JValue.beq x y && beqL xs ys
  | _, _ => false

/-- Structural equality on ordered field lists. -/
def beqO : List (String × JValue) → List (String × JValue) → Bool
  | [], [] => true
  | (k, v) :: xs, (l, w) :: ys => k == l && JValue.beq v w && beqO xs ys
  | _, _ => false

end

mutual

/-- `JValue.beq` decides propositional equality. -/
def jbeqIff : ∀ a b : JValue, JValue.beq a b = true ↔ a = b
  | .str a, .str b => by simp [JValue.beq]
  | .num a, .num b => by simp [JValue.beq]
  | .bool a, .bool b => by simp [JValue.beq]
  | .null, .null => by simp [JValue.beq]
  | .arr xs, .arr ys => by
      simp only [JValue.beq, jbeqLIff xs ys, JValue.arr.injEq]
  | .obj fs, .obj gs => by
      simp only [JValue.beq, jbeqOIff fs gs, JValue.obj.injEq]
  | .str _, .num _ => by simp [JValue.beq]
  | .str _, .bool _ => by simp [JValue.beq]
  | .str _, .null => by simp [JValue.beq]
  | .str _, .arr _ => by simp [JValue.beq]
  | .str _, .obj _ => by simp [JValue.beq]
  | .num _, .str _ => by simp [JValue.beq]
  | .num _, .bool _ => by simp [JValue.beq]
  | .num _, .null => by simp [JValue.beq]
  | .num _, .arr _ => by simp [JValue.beq]
  | .num _, .obj _ => by simp [JValue.beq]
  | .bool _, .str _ => by simp [JValue.beq]
  | .bool _, .num _ => by simp [JValue.beq]
  | .bool _, .null => by simp [JValue.beq]
  | .bool _, .arr _ => by simp [JValue.beq]
  | .bool _, .obj _ => by simp [JValue.beq]
  | .null, .str _ => by simp [JValue.beq]
  | .null, .num _ => by simp [JValue.beq]
  | .null, .bool _ => by simp [JValue.beq]
  | .null, .arr _ => by simp [JValue.beq]
  | .null, .obj _ => by simp [JValue.beq]
  | .arr _, .str _ => by simp [JValue.beq]
  | .arr _, .num _ => by simp [JValue.beq]
  | .arr _, .bool _ => by simp [JValue.beq]
  | .arr _, .null => by simp [JValue.beq]
  | .arr _, .obj _ => by simp [JValue.beq]
  | .obj _, .str _ => by simp [JValue.beq]
  | .obj _, .num _ => by simp [JValue.beq]
  | .obj _, .bool _ => by simp [JValue.beq]
  | .obj _, .null => by simp [JValue.beq]
  | .obj _, .arr _ => by simp [JValue.beq]

/-- `beqL` decides propositional equality. -/
def jbeqLIff : ∀ xs ys : List JValue, beqL xs ys = true ↔ xs = ys
  | [], [] => by simp [beqL]
  | [], _ :: _ => by simp [beqL]
  | _ :: _, [] => by simp [beqL]
  | x :: xs, y :: ys => by
      simp only [beqL, Bool.and_eq_true, jbeqIff x y, jbeqLIff xs ys, List.cons.injEq]

/-- `beqO` decides propositional equality. -/
def jbeqOIff : ∀ fs gs : List (String × JValue), beqO fs gs = true ↔ fs = gs
  | [], [] => by simp [beqO]
  | [], _ :: _ => by simp [beqO]
  | _ :: _, [] => by simp [beqO]
  | (k, v) :: fs, (l, w) :: gs => by
      simp only [beqO, Bool.and_eq_true, jbeqIff v w, jbeqOIff fs gs, List.cons.injEq,
        beq_iff_eq, Prod.mk.injEq]

end

instance : DecidableEq JValue :=
  fun a b => decidable_of_iff (JValue.beq a b = true) (jbeqIff a b)

/-- JavaScript records: ordered association lists of fields. -/
abbrev RecordJ : Type := List (String × JValue)

/-- Property read: value at the first occurrence of the key (`undefined` = `none`). -/
def lookupR : RecordJ → String → Option JValue
  | [], _ => none
  | (k2, v) :: rest, k => if k2 = k then some v else lookupR rest k

/-- The `key in record` test. -/
def hasKey (r : RecordJ) (k : String) : Bool :=
  (lookupR r k).isSome

/-- Property assignment: replace the value at the first occurrence of the key
(keeping its position), or append the key at the end. -/
def setKey : RecordJ → String → JValue → RecordJ
  | [], k, v => [(k, v)]
  | (k2, v2) :: rest, k, v =>
      if k2 = k then (k2, v) :: rest else (k2, v2) :: setKey rest k v

/-- The `delete record[key]` operation. -/
def deleteKey : RecordJ → String → RecordJ
  | [], _ => []
  | (k2, v2) :: rest, k =>
      if k2 = k then deleteKey rest k else (k2, v2) :: deleteKey rest k

/-- JavaScript truthiness of a value. -/
def jsTruthy : JValue → Bool
  | .str s => s ≠ ""
  | .num n => n ≠ 0
  | .bool b => b
  | .null => false
  | .arr _ => true
  | .obj _ => true

/-- Truthiness of a possibly-`undefined` value. -/
def jsTruthyOpt : Option JValue → Bool
  | some v => jsTruthy v
  | none => false

/-- View a value as a record, the way JavaScript property access does after a
truthy `typeof x === "object"` check: objects keep their fields and arrays
are keyed by decimal indices (the shape `{ ...array }` produces). -/
def jsObjLike : JValue → Option RecordJ
  | .obj fs => some fs
  | .arr xs => some ((List.range xs.length).zip xs |>.map (fun p => (toString p.1, p.2)))
  | _ => none

/-- JavaScript `String.prototype.trim()` (whitespace stripped at both ends). -/
def jsTrim (s : String) : String :=
  ⟨((s.data.dropWhile Char.isWhitespace).reverse.dropWhile Char.isWhitespace).reverse⟩

/-- `String.prototype.startsWith`. -/
def jsStartsWith (s pre : String) : Bool :=
  pre.data.isPrefixOf s.data

/-- `String.prototype.endsWith`. -/
def jsEndsWith (s suf : String) : Bool :=
  suf.data.reverse.isPrefixOf s.data.reverse

/-- ASCII lowercasing, for case-insensitive regex tests. -/
def asciiLower (s : String) : String :=
  ⟨s.data.map Char.toLower⟩

/-- The `/^https?:\/\//i` test applied to `value.trim()` (helper `looksLikeUrl`). -/
def looksLikeUrl (value : String) : Bool :=
  jsStartsWith (asciiLower (jsTrim value)) "http://" ||
    jsStartsWith (asciiLower (jsTrim value)) "https://"

/-- Strip the maximal trailing run of characters satisfying `p`
(the effect of `replace(/\?+$/, "")` with `p := (· = '?')`). -/
def dropTrailing (p : Char → Bool) (s : String) : String :=
  ⟨(s.data.reverse.dropWhile p).reverse⟩

/-- `replace(/\.{2,}$/, "")`: remove the trailing run of dots when it has
length at least two, otherwise leave the string unchanged. -/
def stripTrailingDots (s : String) : String :=
  if 2 ≤ (s.data.reverse.takeWhile (· = '.')).length
  then dropTrailing (· = '.') s
  else s

/-- The `/^\d+$/` test. -/
def isAllDigits (s : String) : Bool :=
  s != "" && s.data.all Char.isDigit

/-- The `/^[a-z][a-zA-Z0-9]*$/` test ("camelCase-looking name"). -/
def isCamelCaseName (s : String) : Bool :=
  match s.data with
  | [] => false
  | c :: rest =>
      ('a' ≤ c && c ≤ 'z') &&
        rest.all (fun d =>
          ('a' ≤ d && d ≤ 'z') || ('A' ≤ d && d ≤ 'Z') || ('0' ≤ d && d ≤ '9'))

/-- Split a character list at every `-` or `_` (for the word-boundary regex
`(^|[_-])action([_-]|$)`: the pattern matches exactly when one of the
resulting segments is the action, since no cron action contains `-` or `_`). -/
def splitDashUnderscore : List Char → List (List Char)
  | [] => [[]]
  | c :: rest =>
      let groups := splitDashUnderscore rest
      if c = '-' || c = '_' then [] :: groups
      else
        match groups with
        | g :: gs => (c :: g) :: gs
        | [] => [[c]]

/-- A tool registry entry: `{ name: string; parameters?: unknown }`. -/
structure ToolDef where
  name : String
  parameters : Option JValue

/-- `KNOWN_ALIAS_PAIRS` from `pi-tools.read.ts`, as `(original, alias)` pairs. -/
def knownAliasPairs : List (String × String) :=
  [("path", "file_path"), ("oldText", "old_string"), ("newText", "new_string"),
    ("command", "cmd")]

mutual

/-- Size measure on values (used to pick a sufficient fuel for
`schemaDeepEqual`, whose recursion strictly decreases it). -/
def jsize : JValue → Nat
  | .str _ => 1
  | .num _ => 1
  | .bool _ => 1
  | .null => 1
  | .arr xs => 1 + jsizeL xs
  | .obj fs => 1 + jsizeO fs

/-- Size of a value list. -/
def jsizeL : List JValue → Nat
  | [] => 0
  | x :: xs => jsize x + jsizeL xs

/-- Size of a field list. -/
def jsizeO : List (String × JValue) → Nat
  | [] => 0
  | (_, v) :: fs => jsize v + jsizeO fs

end

/-- Strict equality `===` on possibly-`undefined` values: value equality on
primitives; two distinct heap objects (all objects and arrays occurring here
are freshly decoded from JSON) are never reference-equal. -/
def jsStrictEqOpt : Option JValue → Option JValue → Bool
  | none, none => true
  | some (.str a), some (.str b) => a == b
  | some (.num a), some (.num b) => a == b
  | some (.bool a), some (.bool b) => a == b
  | some .null, some .null => true
  | _, _ => false

/-- One step of `schemaDeepEqual`, with fuel for the recursion into nested
property and item schemas.  `none` stands for an `undefined` argument. -/
def schemaDeepEqualFuel : Nat → Option JValue → Option JValue → Bool
  | 0, _, _ => false
  | Nat.succ fuel, a, b =>
    -- `if (a === b) return true;`
    if jsStrictEqOpt a b then true
    else
      -- `if (!a || !b || typeof a !== "object" || typeof b !== "object") return false;`
      match a, b with
      | some av, some bv =>
        match jsObjLike av, jsObjLike bv with
        | some aObj, some bObj =>
          -- compare the `type` fields
          if !(jsStrictEqOpt (lookupR aObj "type") (lookupR bObj "type")) then false
          -- compare the `description` fields
          else if !(jsStrictEqOpt (lookupR aObj "description") (lookupR bObj "description")) then false
          else if lookupR aObj "type" = some (.str "object") ∧
              lookupR bObj "type" = some (.str "object") then
            -- recursive comparison of `properties`
            match lookupR aObj "properties", lookupR bObj "properties" with
            | some aPv, some bPv =>
              if jsTruthy aPv && jsTruthy bPv then
                match jsObjLike aPv, jsObjLike bPv with
                | some aProps, some bProps =>
                  if (aProps.map Prod.fst).length ≠ (bProps.map Prod.fst).length then false
                  else (aProps.map Prod.fst).all (fun key =>
                    schemaDeepEqualFuel fuel (lookupR aProps key) (lookupR bProps key))
                | _, _ => jsStrictEqOpt (some aPv) (some bPv)
              else jsStrictEqOpt (some aPv) (some bPv)
            | aP, bP => jsStrictEqOpt aP bP
          else if lookupR aObj "type" = some (.str "array") ∧
              lookupR bObj "type" = some (.str "array") then
            schemaDeepEqualFuel fuel (lookupR aObj "items") (lookupR bObj "items")
          -- `// For other types, assume equal if type matches`
          else true
        | _, _ => false
      | _, _ => false

/-- Fuel for a `schemaDeepEqual` call: every recursive call descends into a
value nested strictly inside one of the arguments, so the combined size plus
one never runs out. -/
def sdeqFuelFor (a b : Option JValue) : Nat :=
  (match a with | some v => jsize v | none => 0) +
    (match b with | some v => jsize v | none => 0) + 1

/-- `schemaDeepEqual` from `pi-tools.read.ts`. -/
def schemaDeepEqual (a b : Option JValue) : Bool :=
  schemaDeepEqualFuel (sdeqFuelFor a b) a b

/-- `Map.prototype.set`: overwrite in place (keeping insertion position) or
append a new entry. -/
def mapSet (m : List (String × String)) (k v : String) : List (String × String) :=
  if m.any (fun p => p.1 = k)
  then m.map (fun p => if p.1 = k then (k, v) else p)
  else m ++ [(k, v)]

/-- All index pairs `i < j` of a list, in the nested-loop order of
`extractAliasesFromSchema`. -/
def allPairs : List String → List (String × String)
  | [] => []
  | x :: rest => rest.map (fun y => (x, y)) ++ allPairs rest

/-- Disambiguation of one candidate pair of structurally equal properties:
which `aliases.set(alias, original)` call the branch cascade performs, if any
(known-pair table first, then the camelCase heuristic, then name length). -/
def aliasPairDecision (propA propB : String) : Option (String × String) :=
  let aIsKnownOriginal := knownAliasPairs.any (fun p => p.1 = propA)
  let bIsKnownOriginal := knownAliasPairs.any (fun p => p.1 = propB)
  let aIsKnownAlias := knownAliasPairs.any (fun p => p.2 = propA)
  let bIsKnownAlias := knownAliasPairs.any (fun p => p.2 = propB)
  if aIsKnownOriginal && bIsKnownAlias then some (propB, propA)
  else if bIsKnownOriginal && aIsKnownAlias then some (propA, propB)
  else if aIsKnownAlias && !bIsKnownAlias then some (propA, propB)
  else if bIsKnownAlias && !aIsKnownAlias then some (propB, propA)
  else
    let aIsCamelCase := isCamelCaseName propA
    let bIsCamelCase := isCamelCaseName propB
    if aIsCamelCase && !bIsCamelCase then some (propB, propA)
    else if bIsCamelCase && !aIsCamelCase then some (propA, propB)
    else if propA.length < propB.length then some (propB, propA)
    else if propB.length < propA.length then some (propA, propB)
    else none

/-- Disambiguation step of `extractAliasesFromSchema` for one candidate pair
of structurally equal properties. -/
def aliasPairStep (properties : RecordJ) (aliases : List (String × String))
    (pair : String × String) : List (String × String) :=
  if schemaDeepEqual (lookupR properties pair.1) (lookupR properties pair.2) then
    match aliasPairDecision pair.1 pair.2 with
    | some (ali, orig) => mapSet aliases ali orig
    | none => aliases
  else aliases

/-- `extractAliasesFromSchema`: detect structurally duplicate properties of a
tool schema and return an alias → original map (insertion-ordered). -/
def extractAliasesFromSchema (tool : ToolDef) : List (String × String) :=
  match tool.parameters with
  | some params =>
    match jsObjLike params with
    | some schema =>
      match lookupR schema "properties" with
      | some propsV =>
        if jsTruthy propsV then
          match jsObjLike propsV with
          | some properties =>
            let propertyNames := properties.map Prod.fst
            -- Strategy 1: detect duplicates by comparing schema definitions
            let aliases := (allPairs propertyNames).foldl (aliasPairStep properties) []
            -- Strategy 2: use known alias pairs as fallback
            if aliases.length = 0 then
              knownAliasPairs.foldl
                (fun m p =>
                  if hasKey properties p.1 && hasKey properties p.2
                  then mapSet m p.2 p.1 else m)
                aliases
            else aliases
          | none => []
        else []
      | none => []
    | none => []
  | none => []

/-- `normalizeToolParams` (the deprecated hardcoded fallback):
`file_path → path`, `old_string → oldText`, `new_string → newText`,
`cmd → command` (arrays joined by a space), and the `root` noise key dropped. -/
def normalizeToolParams (params : JValue) : Option RecordJ :=
  if !(jsTruthy params) then none
  else match jsObjLike params with
  | none => none
  | some record =>
    let n0 := record
    let n1 :=
      if hasKey n0 "file_path" && !(hasKey n0 "path")
      then deleteKey (setKey n0 "path" ((lookupR n0 "file_path").getD .null)) "file_path"
      else n0
    let n2 :=
      if hasKey n1 "old_string" && !(hasKey n1 "oldText")
      then deleteKey (setKey n1 "oldText" ((lookupR n1 "old_string").getD .null)) "old_string"
      else n1
    let n3 :=
      if hasKey n2 "new_string" && !(hasKey n2 "newText")
      then deleteKey (setKey n2 "newText" ((lookupR n2 "new_string").getD .null)) "new_string"
      else n2
    let n4 :=
      if hasKey n3 "cmd" && !(hasKey n3 "command") then
        let n3a := match lookupR n3 "cmd" with
          | some (.arr xs) =>
              setKey n3 "command"
                (.str (String.intercalate " "
                  (xs.map (fun v => match v with | .str s => s | _ => ""))))
          | some (.str s) => setKey n3 "command" (.str s)
          | _ => n3
        deleteKey n3a "cmd"
      else n3
    let n5 := if hasKey n4 "root" then deleteKey n4 "root" else n4
    some n5

/-- One step of the alias-application loop of `normalizeToolParamsFromSchema`:
copy the alias's value to the original name and delete the alias, but only
when the alias is present and the original absent at this point. -/
def applyAliasesStep (acc : RecordJ × Bool) (pair : String × String) : RecordJ × Bool :=
  let n := acc.1
  if hasKey n pair.1 && !(hasKey n pair.2) then
    (deleteKey (setKey n pair.2 ((lookupR n pair.1).getD .null)) pair.1, true)
  else acc

/-- The alias-application loop of `normalizeToolParamsFromSchema`, in the
insertion order of the extracted alias map. -/
def applyAliases (pairs : List (String × String)) (r : RecordJ) : RecordJ × Bool :=
  pairs.foldl applyAliasesStep (r, false)

/-- `normalizeToolParamsFromSchema`: schema-extracted alias substitution,
merge of the hardcoded fallback, `cmd → command` conversion and `root`
removal.  Returns `none` (`undefined`) when nothing changed and the alias map
was empty. -/
def normalizeToolParamsFromSchema (params : JValue) (schema : Option JValue)
    (tool : Option ToolDef) : Option RecordJ :=
  if !(jsTruthy params) then none
  else match jsObjLike params with
  | none => none
  | some record =>
    let aliases : List (String × String) :=
      match tool with
      | some t => extractAliasesFromSchema t
      | none =>
        match schema with
        | some sv =>
          match jsObjLike sv with
          | some sObj =>
            if jsTruthyOpt (lookupR sObj "properties")
            then extractAliasesFromSchema ⟨"unknown", some sv⟩
            else []
          | none => []
        | none => []
    -- apply schema-based aliases
    let s1 := applyAliases aliases record
    -- merge the hardcoded fallback (values compared with `!==`; all object
    -- values reaching the comparison originate in `s1.1` itself, so strict
    -- equality coincides with structural equality here)
    let s2 :=
      match normalizeToolParams (.obj s1.1) with
      | some hardcoded =>
          hardcoded.foldl
            (fun acc kv =>
              if !(hasKey acc.1 kv.1) ||
                  !((lookupR acc.1 kv.1).getD .null).beq kv.2
              then (setKey acc.1 kv.1 kv.2, true)
              else acc)
            s1
      | none => s1
    -- special handling for cmd → command
    let s3 :=
      if hasKey s2.1 "cmd" && !(hasKey s2.1 "command") then
        match lookupR s2.1 "cmd" with
        | some (.arr xs) =>
            if xs.all (fun v => match v with | .str _ => true | _ => false) then
              (deleteKey
                (setKey s2.1 "command"
                  (.str (String.intercalate " "
                    (xs.map (fun v => match v with | .str s => s | _ => "")))))
                "cmd", true)
            else s2
        | some (.str s) => (deleteKey (setKey s2.1 "command" (.str s)) "cmd", true)
        | _ => s2
      else s2
    -- remove root property if present
    let s4 := if hasKey s3.1 "root" then (deleteKey s3.1 "root", true) else s3
    if s4.2 || aliases.length != 0 then some s4.1 else none

/-- Valid cron actions (`validActions` in the cron rule). -/
def validCronActions : List String :=
  ["status", "list", "add", "update", "remove", "run", "runs", "wake"]

/-- `validWakeModes` of the cron rule. -/
def validWakeModes : List String := ["now", "next-heartbeat"]

/-- `validRunModes` of the cron rule. -/
def validRunModes : List String := ["due", "force"]

/-- The cron rule's `extractAction` helper: exact match, then a valid action
followed by `-`/`_`, then a valid action as a `-`/`_`-delimited word. -/
def cronExtractAction (value : String) : Option String :=
  if value ∈ validCronActions then some value
  else
    match validCronActions.find?
        (fun a => jsStartsWith value (a ++ "-") || jsStartsWith value (a ++ "_")) with
    | some a => some a
    | none =>
        validCronActions.find?
          (fun a => (splitDashUnderscore value.data).any (fun part => part = a.data))

/-- Step 2.5 of `normalizeToolCallArgs`: the cron rule (`id`/`mode` → `action`).
The caller only invokes it when `toolName === "cron"` and no `action` key is
present.  Returns the rewritten record and the `changed` flag. -/
def cronNormalize (record : RecordJ) : RecordJ × Bool :=
  -- Priority 1: mode
  let s1 : RecordJ × Bool :=
    if hasKey record "mode" && !(hasKey record "action") then
      match lookupR record "mode" with
      | some (.str modeValue) =>
        if modeValue ∈ validCronActions && !(modeValue ∈ validWakeModes) &&
            !(modeValue ∈ validRunModes) then
          (deleteKey (setKey record "action" (.str modeValue)) "mode", true)
        else
          match cronExtractAction modeValue with
          | some extracted =>
              (deleteKey (setKey record "action" (.str extracted)) "mode", true)
          | none => (record, false)
      | _ => (record, false)
    else (record, false)
  -- Priority 2: id (only when action is still not set)
  if hasKey s1.1 "id" && !(hasKey s1.1 "action") then
    match lookupR s1.1 "id" with
    | some (.str idValue) =>
      if idValue ∈ validCronActions then
        (deleteKey (setKey s1.1 "action" (.str idValue)) "id", true)
      else
        match cronExtractAction idValue with
        | some extracted =>
            (deleteKey (setKey s1.1 "action" (.str extracted)) "id", true)
        | none => s1
    | _ => s1
  else s1

/-- Valid gateway actions (`validActions` in the gateway rule). -/
def validGatewayActions : List String :=
  ["restart", "config.get", "config.schema", "config.apply", "config.patch",
    "update.run"]

/-- The gateway rule's `normalizeActionValue` helper: direct match or the
documented semantic alias table (`start → restart`, …). -/
def normalizeActionValue (value : String) : Option String :=
  if value ∈ validGatewayActions then some value
  else if value = "start" then some "restart"
  else if value = "get" || value = "get_config" then some "config.get"
  else if value = "schema" || value = "get_schema" then some "config.schema"
  else if value = "apply" || value = "apply_config" then some "config.apply"
  else if value = "patch" || value = "patch_config" then some "config.patch"
  else if value = "update" || value = "run_update" then some "update.run"
  else none

/-- The trimmed current `action` string of a record, or `null` when the key is
absent or not a string. -/
def currentActionOf (r : RecordJ) : Option String :=
  match lookupR r "action" with
  | some (.str s) => some (jsTrim s)
  | _ => none

/-- The gateway rule's `hasValidAction` test: `action` present, a string, and
its trimmed value a non-empty member of the enumeration. -/
def gatewayHasValidAction (r : RecordJ) : Bool :=
  match currentActionOf r with
  | some c => c != "" && c ∈ validGatewayActions
  | none => false

/-- Whether a donor field of the gateway rule holds a string that maps to a
valid action. -/
def gatewayDonorFires (r : RecordJ) (field : String) : Option String :=
  match lookupR r field with
  | some (.str v) => normalizeActionValue (jsTrim v)
  | _ => none

/-- Gateway rule, cleanup phase: remove a present (hence invalid) `action`. -/
def gatewayStep1 (record : RecordJ) : RecordJ × Bool :=
  if hasKey record "action" then (deleteKey record "action", true)
  else (record, false)

/-- Gateway rule, priority 1: `raw` → `action` (`raw` is kept in place: it may
be needed for `config.apply`/`config.patch`). -/
def gatewayRaw (s : RecordJ × Bool) : RecordJ × Bool :=
  match gatewayDonorFires s.1 "raw" with
  | some act => (setKey s.1 "action" (.str act), true)
  | none => s

/-- Gateway rule, priority 2: `mode` → `action` (`mode` deleted on success). -/
def gatewayMode (s : RecordJ × Bool) : RecordJ × Bool :=
  if !(hasKey s.1 "action") then
    match gatewayDonorFires s.1 "mode" with
    | some act => (deleteKey (setKey s.1 "action" (.str act)) "mode", true)
    | none => s
  else s

/-- Gateway rule, priority 3: `type` → `action` (`type` deleted on success). -/
def gatewayType (s : RecordJ × Bool) : RecordJ × Bool :=
  if !(hasKey s.1 "action") then
    match gatewayDonorFires s.1 "type" with
    | some act => (deleteKey (setKey s.1 "action" (.str act)) "type", true)
    | none => s
  else s

/-- Step 2.6 of `normalizeToolCallArgs`: the gateway rule
(`raw`/`mode`/`type` → `action` when `action` is missing or invalid). -/
def gatewayNormalize (record : RecordJ) : RecordJ × Bool :=
  if gatewayHasValidAction record then (record, false)
  else gatewayType (gatewayMode (gatewayRaw (gatewayStep1 record)))

/-- Valid browser actions (`validActions` in the browser rule). -/
def validBrowserActions : List String :=
  ["status", "start", "stop", "profiles", "tabs", "open", "focus", "close",
    "snapshot", "screenshot", "navigate", "console", "pdf", "upload", "dialog",
    "act"]

/-- Browser act kinds (wrapped into `action: "act"` with `request.kind`). -/
def browserActKinds : List String :=
  ["click", "type", "press", "hover", "drag", "select", "fill", "resize",
    "wait", "evaluate"]

/-- `validSnapshotModes` of the browser rule. -/
def validSnapshotModes : List String := ["efficient"]

/-- `validImageTypes` of the browser rule. -/
def validImageTypes : List String := ["png", "jpeg"]

/-- Set `action: "act"` has already happened; ensure a `request` object exists
(recreating it when absent, falsy or not an object) and give it `kind`
when it has none.  Models lines 400–410 / 439–449 / 505–515 of the wrapper;
the write through the shared `request` reference is folded into the record
value here (its aliasing effect is studied over `Heap` below). -/
def ensureKindRequest (n : RecordJ) (kindVal : String) : RecordJ :=
  let req : RecordJ :=
    match lookupR n "request" with
    | some v => if jsTruthy v then (jsObjLike v).getD [] else []
    | none => []
  let req2 := if hasKey req "kind" then req else setKey req "kind" (.str kindVal)
  setKey n "request" (.obj req2)

/-- Step 2.7 of `normalizeToolCallArgs`: the browser rule
(null-`target` cleanup, `inputRef` → `targetUrl`, act-kind wrapping,
`ref`/`request.kind`/`type`/`mode` → `action`, invalid-`type` cleanup). -/
def browserNormalize (record : RecordJ) : RecordJ × Bool :=
  -- clean up null target
  let s0 : RecordJ × Bool :=
    match lookupR record "target" with
    | some .null => (deleteKey record "target", true)
    | _ => (record, false)
  -- Priority 1: inputRef → targetUrl
  let s1 : RecordJ × Bool :=
    match lookupR s0.1 "inputRef" with
    | some (.str inputRefValue) =>
      if jsTrim inputRefValue != "" then
        let trimmed := jsTrim inputRefValue
        if looksLikeUrl trimmed then (setKey s0.1 "targetUrl" (.str trimmed), true)
        else if !(hasKey s0.1 "targetUrl") then
          (setKey s0.1 "targetUrl" (.str trimmed), true)
        else s0
      else s0
    | _ => s0
  -- Priority 2: normalize action from ref/request.kind/type/mode
  let currentAction := currentActionOf s1.1
  let hasValidAction :=
    match currentAction with
    | some c => c != "" && c ∈ validBrowserActions
    | none => false
  let hasBrowserActKind :=
    match currentAction with
    | some c => c ∈ browserActKinds
    | none => false
  let s6 : RecordJ × Bool :=
    if !hasValidAction then
      -- act-kind wrapping of the action value itself, or invalid-action cleanup
      let s2 : RecordJ × Bool :=
        if hasBrowserActKind &&
            (match currentAction with | some c => c != "" | none => false) then
          (ensureKindRequest (setKey s1.1 "action" (.str "act"))
            ((currentAction).getD ""), true)
        else if hasKey s1.1 "action" then (deleteKey s1.1 "action", true)
        else s1
      -- check ref (kept in place: it may be an element reference)
      let s3 : RecordJ × Bool :=
        match lookupR s2.1 "ref" with
        | some (.str refValue) =>
          let trimmed := jsTrim refValue
          if trimmed ∈ validBrowserActions then
            (setKey s2.1 "action" (.str trimmed), true)
          else if trimmed ∈ browserActKinds then
            (ensureKindRequest (setKey s2.1 "action" (.str "act")) trimmed, true)
          else s2
        | _ => s2
      -- check request.kind
      let s4 : RecordJ × Bool :=
        if !(hasKey s3.1 "action") then
          match lookupR s3.1 "request" with
          | some requestValue =>
            if jsTruthy requestValue then
              match jsObjLike requestValue with
              | some request =>
                match lookupR request "kind" with
                | some (.str requestKind) =>
                  let trimmed := jsTrim requestKind
                  if trimmed ∈ validBrowserActions then
                    let n1 := setKey s3.1 "action" (.str trimmed)
                    if request.length = 1 && hasKey request "kind" then
                      (deleteKey n1 "request", true)
                    else (setKey n1 "request" (.obj (deleteKey request "kind")), true)
                  else s3
                | _ => s3
              | none => s3
            else s3
          | none => s3
        else s3
      -- check type
      let s5 : RecordJ × Bool :=
        if !(hasKey s4.1 "action") then
          match lookupR s4.1 "type" with
          | some (.str typeValue) =>
            let trimmed := jsTrim typeValue
            if trimmed ∈ validBrowserActions then
              (deleteKey (setKey s4.1 "action" (.str trimmed)) "type", true)
            else if trimmed ∈ browserActKinds then
              (deleteKey (ensureKindRequest (setKey s4.1 "action" (.str "act")) trimmed)
                "type", true)
            else if looksLikeUrl trimmed then
              let n1 :=
                if !(hasKey s4.1 "targetUrl")
                then setKey s4.1 "targetUrl" (.str trimmed)
                else s4.1
              (deleteKey n1 "type", true)
            else if !(trimmed ∈ validImageTypes) then (deleteKey s4.1 "type", true)
            else s4
          | _ => s4
        else s4
      -- check mode
      if !(hasKey s5.1 "action") then
        match lookupR s5.1 "mode" with
        | some (.str modeValue) =>
          let trimmed := jsTrim modeValue
          if trimmed ∈ validBrowserActions && !(trimmed ∈ validSnapshotModes) then
            (deleteKey (setKey s5.1 "action" (.str trimmed)) "mode", true)
          else s5
        | _ => s5
      else s5
    else s1
  -- clean up: type still present but neither a valid image type nor an action
  match lookupR s6.1 "type" with
  | some (.str typeVal) =>
    if !(typeVal ∈ validImageTypes) && !(typeVal ∈ validBrowserActions) then
      (deleteKey s6.1 "type", true)
    else s6
  | _ => s6

/-- Step 2.8 of `normalizeToolCallArgs`: the web_fetch rule
(`targetUrl`/`inputRef`/`href`/`link`/`address`/any URL-shaped field → `url`). -/
def webFetchNormalize (record : RecordJ) : RecordJ × Bool :=
  let currentUrl : Option String :=
    match lookupR record "url" with
    | some (.str s) => some (jsTrim s)
    | _ => none
  let hasValidUrl :=
    match currentUrl with
    | some c => c != "" && looksLikeUrl c
    | none => false
  if hasValidUrl then (record, false)
  else
    -- clean up invalid url value
    let s0 : RecordJ × Bool :=
      if hasKey record "url" then (deleteKey record "url", true) else (record, false)
    -- Priority 1: targetUrl (no URL-shape requirement)
    let s1 : RecordJ × Bool :=
      match lookupR s0.1 "targetUrl" with
      | some (.str v) =>
        if jsTrim v != "" then
          (deleteKey (setKey s0.1 "url" (.str (jsTrim v))) "targetUrl", true)
        else s0
      | _ => s0
    -- Priority 2: inputRef (only when URL-shaped)
    let s2 : RecordJ × Bool :=
      if !(hasKey s1.1 "url") then
        match lookupR s1.1 "inputRef" with
        | some (.str v) =>
          if jsTrim v != "" && looksLikeUrl (jsTrim v) then
            (deleteKey (setKey s1.1 "url" (.str (jsTrim v))) "inputRef", true)
          else s1
        | _ => s1
      else s1
    -- Priority 3: href
    let s3 : RecordJ × Bool :=
      if !(hasKey s2.1 "url") then
        match lookupR s2.1 "href" with
        | some (.str v) =>
          if jsTrim v != "" then
            (deleteKey (setKey s2.1 "url" (.str (jsTrim v))) "href", true)
          else s2
        | _ => s2
      else s2
    -- Priority 4: link
    let s4 : RecordJ × Bool :=
      if !(hasKey s3.1 "url") then
        match lookupR s3.1 "link" with
        | some (.str v) =>
          if jsTrim v != "" then
            (deleteKey (setKey s3.1 "url" (.str (jsTrim v))) "link", true)
          else s3
        | _ => s3
      else s3
    -- Priority 5: address (only when URL-shaped)
    let s5 : RecordJ × Bool :=
      if !(hasKey s4.1 "url") then
        match lookupR s4.1 "address" with
        | some (.str v) =>
          if jsTrim v != "" && looksLikeUrl (jsTrim v) then
            (deleteKey (setKey s4.1 "url" (.str (jsTrim v))) "address", true)
          else s4
        | _ => s4
      else s4
    -- Priority 6: first remaining URL-shaped string field
    if !(hasKey s5.1 "url") then
      match s5.1.find?
          (fun kv =>
            match kv.2 with
            | .str v => jsTrim v != "" && looksLikeUrl (jsTrim v)
            | _ => false) with
      | some kv =>
        (deleteKey
          (setKey s5.1 "url"
            (.str (jsTrim (match kv.2 with | .str v => v | _ => ""))))
          kv.1, true)
      | none => s5
    else s5

/-- Valid message actions (`validActions` in the message rule). -/
def validMessageActions : List String :=
  ["send", "broadcast", "poll", "react", "reactions", "read", "edit", "unsend",
    "reply", "sendWithEffect", "renameGroup", "setGroupIcon", "addParticipant",
    "removeParticipant", "leaveGroup", "sendAttachment", "delete", "pin",
    "unpin", "list-pins", "permissions", "thread-create", "thread-list",
    "thread-reply", "search", "sticker", "sticker-search", "member-info",
    "role-info", "emoji-list", "emoji-upload", "sticker-upload", "role-add",
    "role-remove", "channel-info", "channel-list", "channel-create",
    "channel-edit", "channel-delete", "channel-move", "category-create",
    "category-edit", "category-delete", "voice-status", "event-list",
    "event-create", "timeout", "kick", "ban", "set-presence"]

/-- Target/`to` cleanup of the message rule, for one field: strip trailing
`?` and `...` truncation markers; when a marker was stripped, drop numeric
values shorter than 7 digits; drop values left empty. -/
def cleanupTargetField (acc : RecordJ × Bool) (field : String) : RecordJ × Bool :=
  match lookupR acc.1 field with
  | some (.str raw) =>
    let tv0 := jsTrim raw
    -- strip trailing question marks (model uncertainty marker)
    let q : String × RecordJ × Bool × Bool :=
      if jsEndsWith tv0 "?" then
        let cleaned := jsTrim (dropTrailing (fun c => c = '?') tv0)
        if cleaned != tv0 then (cleaned, setKey acc.1 field (.str cleaned), true, true)
        else (tv0, acc.1, acc.2, false)
      else (tv0, acc.1, acc.2, false)
    -- strip trailing dots (another truncation marker)
    let d : String × RecordJ × Bool × Bool :=
      if jsEndsWith q.1 "..." then
        let cleaned := jsTrim (stripTrailingDots q.1)
        if cleaned != q.1 then (cleaned, setKey q.2.1 field (.str cleaned), true, true)
        else (q.1, q.2.1, q.2.2.1, q.2.2.2)
      else (q.1, q.2.1, q.2.2.1, q.2.2.2)
    -- drop implausibly short numeric identifiers, only after stripping
    let e : RecordJ × Bool :=
      if d.2.2.2 && isAllDigits d.1 && d.1.length < 7
      then (deleteKey d.2.1 field, true)
      else (d.2.1, d.2.2.1)
    -- drop the field if it is empty after cleanup
    match lookupR e.1 field with
    | some (.str s) => if jsTrim s = "" then (deleteKey e.1 field, true) else e
    | _ => e
  | _ => acc

/-- Message rule, action phase: delete an invalid `action` and promote
`type`/`mode`/`ref` (in that priority order) when they hold a valid action;
`ref` is kept in place. -/
def messageActionFix (record : RecordJ) : RecordJ × Bool :=
  let hasValidAction :=
    match currentActionOf record with
    | some c => c != "" && c ∈ validMessageActions
    | none => false
  if !hasValidAction then
    let a0 : RecordJ × Bool :=
      if hasKey record "action" then (deleteKey record "action", true)
      else (record, false)
    -- Priority 1: type
    let a1 : RecordJ × Bool :=
      match lookupR a0.1 "type" with
      | some (.str typeValue) =>
        if jsTrim typeValue ∈ validMessageActions then
          (deleteKey (setKey a0.1 "action" (.str (jsTrim typeValue))) "type", true)
        else a0
      | _ => a0
    -- Priority 2: mode
    let a2 : RecordJ × Bool :=
      if !(hasKey a1.1 "action") then
        match lookupR a1.1 "mode" with
        | some (.str modeValue) =>
          if jsTrim modeValue ∈ validMessageActions then
            (deleteKey (setKey a1.1 "action" (.str (jsTrim modeValue))) "mode", true)
          else a1
        | _ => a1
      else a1
    -- Priority 3: ref (kept in place)
    if !(hasKey a2.1 "action") then
      match lookupR a2.1 "ref" with
      | some (.str refValue) =>
        if jsTrim refValue ∈ validMessageActions then
          (setKey a2.1 "action" (.str (jsTrim refValue)), true)
        else a2
      | _ => a2
    else a2
  else (record, false)

/-- Message rule, message phase: delete an invalid `message` and promote
`text`/`content`/`body`/`msg` (in that priority order); set an empty
`message` when media or a card is present. -/
def messageMessageFix (s : RecordJ × Bool) : RecordJ × Bool :=
  let currentMessage :=
    match lookupR s.1 "message" with
    | some (.str m) => some (jsTrim m)
    | _ => none
  let hasValidMessage :=
    match currentMessage with
    | some c => c != ""
    | none => false
  if !hasValidMessage then
    let m0 : RecordJ × Bool :=
      if hasKey s.1 "message" then (deleteKey s.1 "message", true) else s
    -- Priority 1: text
    let m1 : RecordJ × Bool :=
      match lookupR m0.1 "text" with
      | some (.str textValue) =>
        if jsTrim textValue != "" then
          (deleteKey (setKey m0.1 "message" (.str (jsTrim textValue))) "text", true)
        else if !(hasKey m0.1 "message") then
          (deleteKey (setKey m0.1 "message" (.str "")) "text", true)
        else m0
      | _ => m0
    -- Priority 2: content
    let m2 : RecordJ × Bool :=
      if !(hasKey m1.1 "message") then
        match lookupR m1.1 "content" with
        | some (.str contentValue) =>
          if jsTrim contentValue != "" then
            (deleteKey (setKey m1.1 "message" (.str (jsTrim contentValue))) "content", true)
          else (deleteKey (setKey m1.1 "message" (.str "")) "content", true)
        | _ => m1
      else m1
    -- Priority 3: body
    let m3 : RecordJ × Bool :=
      if !(hasKey m2.1 "message") then
        match lookupR m2.1 "body" with
        | some (.str bodyValue) =>
          if jsTrim bodyValue != "" then
            (deleteKey (setKey m2.1 "message" (.str (jsTrim bodyValue))) "body", true)
          else (deleteKey (setKey m2.1 "message" (.str "")) "body", true)
        | _ => m2
      else m2
    -- Priority 4: msg
    let m4 : RecordJ × Bool :=
      if !(hasKey m3.1 "message") then
        match lookupR m3.1 "msg" with
        | some (.str msgValue) =>
          if jsTrim msgValue != "" then
            (deleteKey (setKey m3.1 "message" (.str (jsTrim msgValue))) "msg", true)
          else (deleteKey (setKey m3.1 "message" (.str "")) "msg", true)
        | _ => m3
      else m3
    -- empty message when media or card is present
    if !(hasKey m4.1 "message") then
      let hasMedia :=
        (hasKey m4.1 "media" && jsTruthyOpt (lookupR m4.1 "media")) ||
          (hasKey m4.1 "path" && jsTruthyOpt (lookupR m4.1 "path")) ||
          (hasKey m4.1 "filePath" && jsTruthyOpt (lookupR m4.1 "filePath")) ||
          (hasKey m4.1 "buffer" && jsTruthyOpt (lookupR m4.1 "buffer"))
      let hasCard := hasKey m4.1 "card" && jsTruthyOpt (lookupR m4.1 "card")
      if hasMedia || hasCard then (setKey m4.1 "message" (.str ""), true)
      else m4
    else m4
  else s

/-- Message rule, `to` → `target` phase (for backward compatibility). -/
def messageToTarget (s : RecordJ × Bool) : RecordJ × Bool :=
  if hasKey s.1 "to" && !(hasKey s.1 "target") then
    match lookupR s.1 "to" with
    | some (.str toValue) =>
      if jsTrim toValue != "" then
        (deleteKey (setKey s.1 "target" (.str (jsTrim toValue))) "to", true)
      else s
    | _ => s
  else s

/-- Step 2.9 of `normalizeToolCallArgs`: the message rule
(`type`/`mode`/`ref` → `action`, `text`/`content`/`body`/`msg` → `message`,
`to` → `target`, truncation cleanup of `target`/`to`). -/
def messageNormalize (record : RecordJ) : RecordJ × Bool :=
  cleanupTargetField
    (cleanupTargetField (messageToTarget (messageMessageFix (messageActionFix record)))
      "target")
    "to"

/-- The double-wrapped-envelope test of step 1 of `normalizeToolCallArgs`:
a string `name` together with a non-null object `arguments`. -/
def envelopeParts (record : RecordJ) : Option (String × JValue) :=
  match lookupR record "name", lookupR record "arguments" with
  | some (.str n), some (.obj fs) => some (n, .obj fs)
  | some (.str n), some (.arr xs) => some (n, .arr xs)
  | _, _ => none

/-- Step 2 of `normalizeToolCallArgs`: schema-based normalization when a tool
name and a registry are available and the tool has truthy parameters. -/
def schemaStep (toolName : Option String) (tools : Option (List ToolDef))
    (record : RecordJ) : Option RecordJ :=
  match toolName, tools with
  | some tn, some ts =>
    if tn != "" then
      match ts.find? (fun t => t.name = tn) with
      | some tool =>
        if jsTruthyOpt tool.parameters then
          normalizeToolParamsFromSchema (.obj record) tool.parameters (some tool)
        else none
      | none => none
    else none
  | _, _ => none

/-- A per-tool rule outcome: the rewritten record when `changed`, else `none`
(the cascade falls through to the next step). -/
def toChange (p : RecordJ × Bool) : Option RecordJ :=
  if p.2 then some p.1 else none

/-- Steps 2.5–2.9 of `normalizeToolCallArgs`: the per-tool repair rules.
The guards on `toolName` are mutually exclusive, so the sequential `if`
cascade of the source is a dispatch on the name. -/
def perToolStep (toolName : Option String) (record : RecordJ) : Option RecordJ :=
  match toolName with
  | some tn =>
    if tn = "cron" then
      if !(hasKey record "action") then toChange (cronNormalize record) else none
    else if tn = "gateway" then toChange (gatewayNormalize record)
    else if tn = "browser" then toChange (browserNormalize record)
    else if tn = "web_fetch" then toChange (webFetchNormalize record)
    else if tn = "message" then toChange (messageNormalize record)
    else none
  | none => none

/-- The `if (changed) return normalized;` pattern of the per-tool rule blocks:
apply one rule in isolation, keeping the input record when it reports no
change. -/
def applyRule (step : RecordJ → RecordJ × Bool) (r : RecordJ) : RecordJ :=
  if (step r).2 then (step r).1 else r

/-- Body of `normalizeToolCallArgs` on a record-shaped payload: envelope
unwrapping, schema-based normalization, per-tool repair rules, then the
hardcoded fallback. -/
def normalizeToolCallArgsRecord (record : RecordJ) (toolName : Option String)
    (tools : Option (List ToolDef)) : Option RecordJ :=
    -- 1. unwrap double-wrapped arguments
    match envelopeParts record with
    | some (innerToolName, innerArgs) =>
      let fromSchema : Option RecordJ :=
        match tools with
        | some ts =>
          match ts.find? (fun t => t.name = innerToolName) with
          | some tool =>
            if jsTruthyOpt tool.parameters then
              normalizeToolParamsFromSchema innerArgs tool.parameters (some tool)
            else none
          | none => none
        | none => none
      match fromSchema with
      | some n => some n
      | none =>
        -- fallback to hardcoded normalization
        some ((normalizeToolParams innerArgs).getD ((jsObjLike innerArgs).getD []))
    | none =>
      -- 2. schema-based normalization
      match schemaStep toolName tools record with
      | some n => some n
      | none =>
        -- 2.5–2.9: per-tool repair rules
        match perToolStep toolName record with
        | some n => some n
        | none =>
          -- 3. fallback to hardcoded normalizations
          normalizeToolParams (.obj record)

/-- `normalizeToolCallArgs`: guard out falsy and non-object payloads
(`undefined` = `none`), then run the record-level pipeline. -/
def normalizeToolCallArgs (args : JValue) (toolName : Option String)
    (tools : Option (List ToolDef)) : Option RecordJ :=
  if !(jsTruthy args) then none
  else match jsObjLike args with
  | none => none
  | some record => normalizeToolCallArgsRecord record toolName tools

/-- A content block of an assistant message; only `toolCall` blocks are
inspected by the normalizer. -/
inductive ContentBlock where
  | toolCall (id : String) (name : String) (arguments : JValue)
  | textBlock (text : String)
  | otherBlock (payload : JValue)
  deriving DecidableEq

/-- An assistant message (its `content` array of blocks). -/
structure AssistantMsg where
  content : List ContentBlock
  deriving DecidableEq

/-- `normalizeMessageToolCalls` on one content block: non-toolCall blocks are
returned as-is; a toolCall block is replaced only when normalization produced
a record whose serialization differs from the original arguments. -/
def normalizeBlock (tools : Option (List ToolDef)) (block : ContentBlock) :
    ContentBlock :=
  match block with
  | .toolCall id name arguments =>
    match normalizeToolCallArgs arguments (some name) tools with
    | some normalized =>
      if (JValue.obj normalized).beq arguments then block
      else .toolCall id name (.obj normalized)
    | none => block
  | b => b

/-- `normalizeMessageToolCalls`: map the block normalizer over the message
content (the message is returned unchanged when no block changed, which is
value-equal to the mapped message). -/
def normalizeMessageToolCalls (message : AssistantMsg)
    (tools : Option (List ToolDef)) : AssistantMsg :=
  ⟨message.content.map (normalizeBlock tools)⟩

/-- Provider stream events.  Only `toolcall_end` (with its partial message
snapshot) and `done` carry argument payloads subject to repair; every other
event kind is represented by `otherEvent` and forwarded untouched. -/
inductive StreamEvent where
  | text_delta (delta : String)
  | toolcall_end (toolCall : Option ContentBlock) (partialMsg : Option AssistantMsg)
  | done (message : AssistantMsg)
  | otherEvent (tag : String) (payload : JValue)

/-- One loop iteration of `pipeAndNormalize`: rewrite `done` and
`toolcall_end` (when it carries a partial message snapshot), forward
everything else as the identical value. -/
def processEvent (tools : Option (List ToolDef)) (event : StreamEvent) :
    StreamEvent :=
  match event with
  | .done message => .done (normalizeMessageToolCalls message tools)
  | .toolcall_end toolCall (some partialSnapshot) =>
    let normalizedToolCall : Option ContentBlock :=
      match toolCall with
      | some (.toolCall id name arguments) =>
        match normalizeToolCallArgs arguments (some name) tools with
        | some normalized =>
          if !((JValue.obj normalized).beq arguments) then
            some (.toolCall id name (.obj normalized))
          else toolCall
        | none => toolCall
      | tc => tc
    .toolcall_end normalizedToolCall
      (some (normalizeMessageToolCalls partialSnapshot tools))
  | e => e

/-- An emission on the output event sequence: a pushed event or the
`output.end()` termination marker. -/
inductive OutItem where
  | ev (event : StreamEvent)
  | endMarker

/-- Whether an output emission is the termination marker. -/
def isEndItem : OutItem → Bool
  | .endMarker => true
  | .ev _ => false

/-- The `for await` loop body of `pipeAndNormalize`: one pushed output event
per input event, in input order. -/
def pipeLoop (tools : Option (List ToolDef)) : List StreamEvent → List OutItem
  | [] => []
  | e :: rest => .ev (processEvent tools e) :: pipeLoop tools rest

/-- `pipeAndNormalize` as observed on the output sequence.  The input is the
list of events the provider delivers before completing or raising; `raises`
tells whether it then raises.  On normal completion `output.end()` runs
after the loop; when the input raises, the rethrown error is caught by
`createToolArgsNormalizerWrapper`'s `.catch`, which only logs — `end()` is
never invoked on the output. -/
def pipeAndNormalize (tools : Option (List ToolDef)) (events : List StreamEvent)
    (raises : Bool) : List OutItem :=
  pipeLoop tools events ++ (if raises then [] else [.endMarker])

/-- Heap-model values: primitives held inline, nested objects by reference. -/
inductive HVal where
  | prim (v : JValue)
  | href (addr : Nat)
  deriving DecidableEq

/-- A heap object: an ordered field list over heap values. -/
abbrev HObj : Type := List (String × HVal)

/-- A heap: association of addresses to objects. -/
abbrev Heap : Type := List (Nat × HObj)

/-- Read a heap object. -/
def heapGet : Heap → Nat → Option HObj
  | [], _ => none
  | (a2, o) :: rest, a => if a2 = a then some o else heapGet rest a

/-- Write a heap object (in place, or allocating the address). -/
def heapSet : Heap → Nat → HObj → Heap
  | [], a, o => [(a, o)]
  | (a2, o2) :: rest, a, o =>
      if a2 = a then (a2, o) :: rest else (a2, o2) :: heapSet rest a o

/-- A fresh address: one past the largest allocated address. -/
def freshAddr (h : Heap) : Nat :=
  (h.map Prod.fst).foldr max 0 + 1

/-- Field read on a heap object. -/
def hvLookup : HObj → String → Option HVal
  | [], _ => none
  | (k2, v) :: rest, k => if k2 = k then some v else hvLookup rest k

/-- Field write on a heap object (JavaScript assignment semantics). -/
def hvSet : HObj → String → HVal → HObj
  | [], k, v => [(k, v)]
  | (k2, v2) :: rest, k, v =>
      if k2 = k then (k2, v) :: rest else (k2, v2) :: hvSet rest k v

/-- The browser rule's act-kind wrapping step (wrapper lines 396–414) over the
explicit heap: `normalized = { ...record }` allocates a fresh top-level object
that shares the references of nested objects, and
`request.kind = currentAction` writes through the shared reference when the
record already holds a truthy `request` object.  Returns the heap after the
step and the address of `normalized`. -/
def browserActWrapHeap (h : Heap) (argsAddr : Nat) : Heap × Nat :=
  let record := (heapGet h argsAddr).getD []
  -- `const normalized = { ...record };` (shallow copy, shares nested refs)
  let normalizedAddr := freshAddr h
  let h1 := heapSet h normalizedAddr record
  let currentAction : Option String :=
    match hvLookup record "action" with
    | some (.prim (.str s)) => some (jsTrim s)
    | _ => none
  let hasValidAction :=
    match currentAction with
    | some c => c != "" && c ∈ validBrowserActions
    | none => false
  let hasBrowserActKind :=
    match currentAction with
    | some c => c ∈ browserActKinds
    | none => false
  if !hasValidAction && hasBrowserActKind &&
      (match currentAction with | some c => c != "" | none => false) then
    let n1 := hvSet record "action" (.prim (.str "act"))
    match hvLookup n1 "request" with
    | some (.href p) =>
      -- truthy object already present: `request.kind = ...` mutates it in
      -- place through the reference shared with the input record
      let reqObj := (heapGet h1 p).getD []
      let h2 :=
        if (hvLookup reqObj "kind").isSome then h1
        else heapSet h1 p (hvSet reqObj "kind" (.prim (.str ((currentAction).getD ""))))
      (heapSet h2 normalizedAddr n1, normalizedAddr)
    | _ =>
      -- `normalized.request = {}` allocates a fresh object, then gains `kind`
      let q := freshAddr h1
      let h2 := heapSet h1 q []
      let n2 := hvSet n1 "request" (.href q)
      let h3 := heapSet h2 q (hvSet [] "kind" (.prim (.str ((currentAction).getD ""))))
      (heapSet h3 normalizedAddr n2, normalizedAddr)
  else (h1, normalizedAddr)

theorem lookupR_setKey_self (r : RecordJ) (k : String) (v : JValue) :
    lookupR (setKey r k v) k = some v := by
  induction r with
  | nil => simp [setKey, lookupR]
  | cons p rest ih =>
    obtain ⟨k2, v2⟩ := p
    by_cases h : k2 = k <;> simp [setKey, lookupR, h, ih]

theorem lookupR_setKey_ne (r : RecordJ) (k k2 : String) (v : JValue)
    (h : k ≠ k2) : lookupR (setKey r k v) k2 = lookupR r k2 := by
  induction r with
  | nil => simp [setKey, lookupR, h]
  | cons p rest ih =>
    obtain ⟨k3, v3⟩ := p
    by_cases h3 : k3 = k
    · subst h3
      simp [setKey, lookupR, h]
    · simp [setKey, lookupR, h3, ih]

theorem lookupR_deleteKey_self (r : RecordJ) (k : String) :
    lookupR (deleteKey r k) k = none := by
  induction r with
  | nil => simp [deleteKey, lookupR]
  | cons p rest ih =>
    obtain ⟨k2, v2⟩ := p
    by_cases h : k2 = k <;> simp [deleteKey, lookupR, h, ih]

theorem lookupR_deleteKey_ne (r : RecordJ) (k k2 : String) (h : k ≠ k2) :
    lookupR (deleteKey r k) k2 = lookupR r k2 := by
  induction r with
  | nil => simp [deleteKey, lookupR]
  | cons p rest ih =>
    obtain ⟨k3, v3⟩ := p
    by_cases h3 : k3 = k
    · subst h3
      simp [deleteKey, lookupR, h, ih]
    · simp [deleteKey, lookupR, h3, ih]

theorem hasKey_setKey_self (r : RecordJ) (k : String) (v : JValue) :
    hasKey (setKey r k v) k = true := by
  simp [hasKey, lookupR_setKey_self]

theorem hasKey_setKey_ne (r : RecordJ) (k k2 : String) (v : JValue) (h : k ≠ k2) :
    hasKey (setKey r k v) k2 = hasKey r k2 := by
  simp [hasKey, lookupR_setKey_ne r k k2 v h]

theorem hasKey_deleteKey_self (r : RecordJ) (k : String) :
    hasKey (deleteKey r k) k = false := by
  simp [hasKey, lookupR_deleteKey_self]

theorem hasKey_deleteKey_ne (r : RecordJ) (k k2 : String) (h : k ≠ k2) :
    hasKey (deleteKey r k) k2 = hasKey r k2 := by
  simp [hasKey, lookupR_deleteKey_ne r k k2 h]

theorem lookupR_eq_some_of_hasKey (r : RecordJ) (k : String)
    (h : hasKey r k = true) : ∃ v, lookupR r k = some v := by
  simpa [hasKey, Option.isSome_iff_exists] using h

theorem normalizeActionValue_spec (s a : String)
    (h : normalizeActionValue s = some a) :
    a ∈ validGatewayActions ∧ jsTrim a = a ∧ a ≠ "" := by
  unfold normalizeActionValue at h
  split at h
  · rename_i hmem
    injection h with h2
    subst h2
    refine ⟨hmem, ?_, ?_⟩
    · simp only [validGatewayActions, List.mem_cons, List.mem_singleton] at hmem
      rcases hmem with rfl | rfl | rfl | rfl | rfl | rfl | hmem
      · decide
      · decide
      · decide
      · decide
      · decide
      · decide
      · simp at hmem
    · simp only [validGatewayActions, List.mem_cons, List.mem_singleton] at hmem
      rcases hmem with rfl | rfl | rfl | rfl | rfl | rfl | hmem
      · decide
      · decide
      · decide
      · decide
      · decide
      · decide
      · simp at hmem
  · split at h
    · injection h with h2; subst h2; refine ⟨by decide, by decide, by decide⟩
    · split at h
      · injection h with h2; subst h2; refine ⟨by decide, by decide, by decide⟩
      · split at h
        · injection h with h2; subst h2; refine ⟨by decide, by decide, by decide⟩
        · split at h
          · injection h with h2; subst h2; refine ⟨by decide, by decide, by decide⟩
          · split at h
            · injection h with h2; subst h2; refine ⟨by decide, by decide, by decide⟩
            · split at h
              · injection h with h2; subst h2; refine ⟨by decide, by decide, by decide⟩
              · exact absurd h (by simp)

theorem gatewayDonorFires_spec (r : RecordJ) (f : String) (act : String)
    (h : gatewayDonorFires r f = some act) :
    act ∈ validGatewayActions ∧ jsTrim act = act ∧ act ≠ "" := by
  unfold gatewayDonorFires at h
  split at h
  · exact normalizeActionValue_spec _ _ h
  · exact absurd h (by simp)

theorem gatewayStep1_no_action (r : RecordJ) :
    hasKey (gatewayStep1 r).1 "action" = false := by
  unfold gatewayStep1
  split
  · simp [hasKey_deleteKey_self]
  · rename_i h
    simpa using h

theorem lookupR_none_of_no_key (t : RecordJ) (k : String)
    (h : hasKey t k = false) : lookupR t k = none := by
  cases h2 : lookupR t k with
  | none => rfl
  | some v =>
    rw [hasKey, h2] at h
    simp at h

theorem gatewayNormalize_of_stable (t : RecordJ)
    (hna : hasKey t "action" = false)
    (hraw : gatewayDonorFires t "raw" = none)
    (hmode : gatewayDonorFires t "mode" = none)
    (htype : gatewayDonorFires t "type" = none) :
    gatewayNormalize t = (t, false) := by
  have hlook : lookupR t "action" = none := lookupR_none_of_no_key t _ hna
  have hv3 : gatewayHasValidAction t = false := by
    unfold gatewayHasValidAction currentActionOf
    rw [hlook]
  have hs1 : gatewayStep1 t = (t, false) := by
    unfold gatewayStep1
    simp [hna]
  unfold gatewayNormalize
  rw [hv3]
  simp only [Bool.false_eq_true, if_false]
  rw [hs1]
  have hr2 : gatewayRaw (t, false) = (t, false) := by
    unfold gatewayRaw
    rw [hraw]
  rw [hr2]
  have hm2 : gatewayMode (t, false) = (t, false) := by
    unfold gatewayMode
    simp [hna, hmode]
  rw [hm2]
  unfold gatewayType
  simp [hna, htype]

theorem gatewayHasValidAction_of_lookup (n : RecordJ) (act : String)
    (hl : lookupR n "action" = some (.str act))
    (hmem : act ∈ validGatewayActions) (htr : jsTrim act = act) (hne : act ≠ "") :
    gatewayHasValidAction n = true := by
  unfold gatewayHasValidAction currentActionOf
  rw [hl]
  simp [htr, hne, hmem]

theorem gatewayNormalize_of_valid (r : RecordJ)
    (h : gatewayHasValidAction r = true) : gatewayNormalize r = (r, false) := by
  unfold gatewayNormalize
  simp [h]

/-- C1 (amended): the gateway repair rule is idempotent in isolation — applying
the `raw`/`mode`/`type` → `action` normalization step twice yields the same
record as applying it once, for every argument record. -/
theorem gateway_rule_idempotent (r : RecordJ) :
    applyRule gatewayNormalize (applyRule gatewayNormalize r) =
      applyRule gatewayNormalize r := by
  by_cases hv : gatewayHasValidAction r = true
  · simp [applyRule, gatewayNormalize_of_valid r hv]
  · have hv2 : gatewayHasValidAction r = false := by simpa using hv
    have hna : hasKey (gatewayStep1 r).1 "action" = false := gatewayStep1_no_action r
    have hgn : gatewayNormalize r =
        gatewayType (gatewayMode (gatewayRaw (gatewayStep1 r))) := by
      unfold gatewayNormalize
      simp [hv2]
    cases hraw : gatewayDonorFires (gatewayStep1 r).1 "raw" with
    | some act =>
      obtain ⟨hmem, htr, hne⟩ := gatewayDonorFires_spec _ _ _ hraw
      have hr : gatewayRaw (gatewayStep1 r) =
          (setKey (gatewayStep1 r).1 "action" (.str act), true) := by
        unfold gatewayRaw
        rw [hraw]
      have hm : gatewayMode (gatewayRaw (gatewayStep1 r)) = gatewayRaw (gatewayStep1 r) := by
        rw [hr]
        unfold gatewayMode
        simp [hasKey_setKey_self]
      have ht : gatewayType (gatewayMode (gatewayRaw (gatewayStep1 r))) =
          gatewayRaw (gatewayStep1 r) := by
        rw [hm, hr]
        unfold gatewayType
        simp [hasKey_setKey_self]
      have hfin : gatewayNormalize r = (setKey (gatewayStep1 r).1 "action" (.str act), true) := by
        rw [hgn, ht, hr]
      have hvalid2 : gatewayHasValidAction (setKey (gatewayStep1 r).1 "action" (.str act)) = true :=
        gatewayHasValidAction_of_lookup _ act (lookupR_setKey_self _ _ _) hmem htr hne
      simp [applyRule, hfin, gatewayNormalize_of_valid _ hvalid2]
    | none =>
      have hr : gatewayRaw (gatewayStep1 r) = gatewayStep1 r := by
        unfold gatewayRaw
        rw [hraw]
      cases hmode : gatewayDonorFires (gatewayStep1 r).1 "mode" with
      | some act =>
        obtain ⟨hmem, htr, hne⟩ := gatewayDonorFires_spec _ _ _ hmode
        have hm : gatewayMode (gatewayRaw (gatewayStep1 r)) =
            (deleteKey (setKey (gatewayStep1 r).1 "action" (.str act)) "mode", true) := by
          rw [hr]
          unfold gatewayMode
          simp [hna, hmode]
        have hlook : lookupR (deleteKey (setKey (gatewayStep1 r).1 "action" (.str act)) "mode")
            "action" = some (.str act) := by
          rw [lookupR_deleteKey_ne _ _ _ (by decide), lookupR_setKey_self]
        have ht : gatewayType (gatewayMode (gatewayRaw (gatewayStep1 r))) =
            gatewayMode (gatewayRaw (gatewayStep1 r)) := by
          rw [hm]
          unfold gatewayType
          simp [hasKey, hlook]
        have hfin : gatewayNormalize r =
            (deleteKey (setKey (gatewayStep1 r).1 "action" (.str act)) "mode", true) := by
          rw [hgn, ht, hm]
        have hvalid2 := gatewayHasValidAction_of_lookup _ act hlook hmem htr hne
        simp [applyRule, hfin, gatewayNormalize_of_valid _ hvalid2]
      | none =>
        have hm : gatewayMode (gatewayRaw (gatewayStep1 r)) = gatewayStep1 r := by
          rw [hr]
          unfold gatewayMode
          simp [hna, hmode]
        cases htype : gatewayDonorFires (gatewayStep1 r).1 "type" with
        | some act =>
          obtain ⟨hmem, htr, hne⟩ := gatewayDonorFires_spec _ _ _ htype
          have ht : gatewayType (gatewayMode (gatewayRaw (gatewayStep1 r))) =
              (deleteKey (setKey (gatewayStep1 r).1 "action" (.str act)) "type", true) := by
            rw [hm]
            unfold gatewayType
            simp [hna, htype]
          have hlook : lookupR (deleteKey (setKey (gatewayStep1 r).1 "action" (.str act)) "type")
              "action" = some (.str act) := by
            rw [lookupR_deleteKey_ne _ _ _ (by decide), lookupR_setKey_self]
          have hfin : gatewayNormalize r =
              (deleteKey (setKey (gatewayStep1 r).1 "action" (.str act)) "type", true) := by
            rw [hgn, ht]
          have hvalid2 := gatewayHasValidAction_of_lookup _ act hlook hmem htr hne
          simp [applyRule, hfin, gatewayNormalize_of_valid _ hvalid2]
        | none =>
          have ht : gatewayType (gatewayMode (gatewayRaw (gatewayStep1 r))) = gatewayStep1 r := by
            rw [hm]
            unfold gatewayType
            simp [hna, htype]
          have hfin : gatewayNormalize r = gatewayStep1 r := by rw [hgn, ht]
          by_cases hc : (gatewayStep1 r).2 = true
          · -- an invalid action was deleted; the donors still do not fire
            have happ : applyRule gatewayNormalize r = (gatewayStep1 r).1 := by
              simp [applyRule, hfin, hc]
            rw [happ]
            have hgn2 : gatewayNormalize (gatewayStep1 r).1 = ((gatewayStep1 r).1, false) :=
              gatewayNormalize_of_stable _ hna hraw hmode htype
            simp [applyRule, hgn2]
          · have hc2 : (gatewayStep1 r).2 = false := by simpa using hc
            have happ : applyRule gatewayNormalize r = r := by
              simp [applyRule, hfin, hc2]
            rw [happ]
            simp [applyRule, hfin, hc2]

theorem normalizeToolParams_plain (r : RecordJ)
    (hfp : hasKey r "file_path" = false) (hos : hasKey r "old_string" = false)
    (hns : hasKey r "new_string" = false) (hcmd : hasKey r "cmd" = false)
    (hroot : hasKey r "root" = false) :
    normalizeToolParams (.obj r) = some r := by
  unfold normalizeToolParams
  simp [jsTruthy, jsObjLike, hfp, hos, hns, hcmd, hroot]

theorem normalizeToolCallArgs_obj (r : RecordJ) (tn : Option String)
    (ts : Option (List ToolDef)) :
    normalizeToolCallArgs (.obj r) tn ts = normalizeToolCallArgsRecord r tn ts :=
  rfl

theorem normalizeToolCallArgsRecord_fallthrough (r : RecordJ) (tn : Option String)
    (ts : Option (List ToolDef)) (he : envelopeParts r = none)
    (hs : schemaStep tn ts r = none) (hp : perToolStep tn r = none) :
    normalizeToolCallArgsRecord r tn ts = normalizeToolParams (.obj r) := by
  unfold normalizeToolCallArgsRecord
  rw [he, hs, hp]

/-- C2 (amended): non-destructiveness away from the repair triggers — a
gateway record whose `action` holds a valid enumeration value, which is not of
envelope shape and contains none of the fallback-normalized keys
(`file_path`, `old_string`, `new_string`, `cmd`, `root`), is returned
structurally unchanged by `normalizeToolCallArgs`. -/
theorem gateway_valid_action_unchanged (r : RecordJ)
    (hv : gatewayHasValidAction r = true)
    (hname : hasKey r "name" = false)
    (hfp : hasKey r "file_path" = false) (hos : hasKey r "old_string" = false)
    (hns : hasKey r "new_string" = false) (hcmd : hasKey r "cmd" = false)
    (hroot : hasKey r "root" = false) :
    normalizeToolCallArgs (.obj r) (some "gateway") none = some r := by
  have h1 : lookupR r "name" = none := lookupR_none_of_no_key r _ hname
  rw [normalizeToolCallArgs_obj,
    normalizeToolCallArgsRecord_fallthrough r _ _
      (by unfold envelopeParts; rw [h1])
      (show schemaStep (some "gateway") none r = none from rfl)
      (by
        unfold perToolStep
        rw [gatewayNormalize_of_valid r hv]
        simp [toChange]),
    normalizeToolParams_plain r hfp hos hns hcmd hroot]

theorem digit_not_ws (c : Char) (h : c.isDigit = true) : c.isWhitespace = false := by
  by_contra h2
  simp only [Bool.not_eq_false] at h2
  simp only [Char.isWhitespace] at h2
  simp only [Bool.or_eq_true, decide_eq_true_eq] at h2
  rcases h2 with ((rfl | rfl) | rfl) | rfl <;> revert h <;> decide

theorem dropWhile_ws_of_digits (l : List Char) (h : l.all Char.isDigit = true) :
    l.dropWhile Char.isWhitespace = l := by
  cases l with
  | nil => rfl
  | cons c rest =>
    have hc : c.isDigit = true := by
      simp only [List.all_cons, Bool.and_eq_true] at h
      exact h.1
    simp [List.dropWhile, digit_not_ws c hc]

theorem jsTrim_of_digits (s : String) (h : s.data.all Char.isDigit = true) :
    jsTrim s = s := by
  unfold jsTrim
  rw [dropWhile_ws_of_digits s.data h]
  rw [dropWhile_ws_of_digits s.data.reverse (by simpa using h)]
  rw [List.reverse_reverse]

theorem digit_ne_char (c d : Char) (h : c.isDigit = true) (hd : d.isDigit = false) :
    (d == c) = false := by
  by_contra h2
  simp only [Bool.not_eq_false, beq_iff_eq] at h2
  subst h2
  rw [h] at hd
  exact absurd hd (by simp)

theorem endsWith_q_of_digits (s : String) (h : s.data.all Char.isDigit = true) :
    jsEndsWith s "?" = false := by
  unfold jsEndsWith
  cases hrev : s.data.reverse with
  | nil => rfl
  | cons c rest =>
    have hc : c.isDigit = true := by
      have hmem : c ∈ s.data := by
        rw [← List.mem_reverse, hrev]
        exact List.mem_cons_self c rest
      exact (List.all_eq_true.mp h) c hmem
    show List.isPrefixOf ['?'] (c :: rest) = false
    simp [List.isPrefixOf, digit_ne_char c '?' hc (by decide)]

theorem endsWith_dots_of_digits (s : String) (h : s.data.all Char.isDigit = true) :
    jsEndsWith s "..." = false := by
  unfold jsEndsWith
  cases hrev : s.data.reverse with
  | nil => rfl
  | cons c rest =>
    have hc : c.isDigit = true := by
      have hmem : c ∈ s.data := by
        rw [← List.mem_reverse, hrev]
        exact List.mem_cons_self c rest
      exact (List.all_eq_true.mp h) c hmem
    show List.isPrefixOf ['.', '.', '.'] (c :: rest) = false
    simp [List.isPrefixOf, digit_ne_char c '.' hc (by decide)]

theorem messageActionFix_target (s : String) :
    messageActionFix [("target", .str s)] = ([("target", .str s)], false) := by
  unfold messageActionFix currentActionOf
  simp [lookupR, hasKey]

theorem messageMessageFix_target (s : String) :
    messageMessageFix ([("target", .str s)], false) = ([("target", .str s)], false) := by
  unfold messageMessageFix
  simp [lookupR, hasKey, jsTruthyOpt]

theorem messageToTarget_target (s : String) :
    messageToTarget ([("target", .str s)], false) = ([("target", .str s)], false) := by
  unfold messageToTarget
  simp [lookupR, hasKey]

theorem cleanupTargetField_digits (s : String)
    (hdig : s.data.all Char.isDigit = true) (hne : s ≠ "") (f : String) :
    cleanupTargetField ([("target", .str s)], false) f =
      ([("target", .str s)], false) := by
  have htr := jsTrim_of_digits s hdig
  have hq := endsWith_q_of_digits s hdig
  have hd := endsWith_dots_of_digits s hdig
  by_cases hf : f = "target"
  · subst hf
    unfold cleanupTargetField
    simp [lookupR, htr, hq, hd, hne]
  · unfold cleanupTargetField
    simp [lookupR, Ne.symm hf]

theorem messageNormalize_target_digits (s : String)
    (hdig : s.data.all Char.isDigit = true) (hne : s ≠ "") :
    messageNormalize [("target", .str s)] = ([("target", .str s)], false) := by
  unfold messageNormalize
  rw [messageActionFix_target, messageMessageFix_target, messageToTarget_target,
    cleanupTargetField_digits s hdig hne, cleanupTargetField_digits s hdig hne]

/-- C9: truncation cleanup for the message tool — a `target` of `"14760?"` is
stripped to `"14760"` and, being a numeric string of fewer than 7 digits after
stripping, dropped entirely; a numeric target of fewer than 7 digits with no
trailing `?`/`...` marker is kept unchanged. -/
theorem message_target_truncation_cleanup (s : String)
    (hdig : s.data.all Char.isDigit = true) (hne : s ≠ "") (_hlen : s.length < 7) :
    normalizeToolCallArgs (.obj [("target", .str "14760?")]) (some "message") none =
      some [] ∧
    normalizeToolCallArgs (.obj [("target", .str s)]) (some "message") none =
      some [("target", .str s)] := by
  constructor
  · decide
  · rw [normalizeToolCallArgs_obj,
      normalizeToolCallArgsRecord_fallthrough _ _ _
        (by unfold envelopeParts; simp [lookupR])
        (show schemaStep (some "message") none _ = none from rfl)
        (by
          unfold perToolStep
          rw [messageNormalize_target_digits s hdig hne]
          simp [toChange]),
      normalizeToolParams_plain _ (by simp [hasKey, lookupR]) (by simp [hasKey, lookupR])
        (by simp [hasKey, lookupR]) (by simp [hasKey, lookupR]) (by simp [hasKey, lookupR])]

theorem pipeLoop_eq_map (tools : Option (List ToolDef)) (events : List StreamEvent) :
    pipeLoop tools events = events.map (fun e => OutItem.ev (processEvent tools e)) := by
  induction events with
  | nil => rfl
  | cons e rest ih => simp [pipeLoop, ih]

theorem pipeLoop_no_end (tools : Option (List ToolDef)) (events : List StreamEvent) :
    (pipeLoop tools events).filter isEndItem = [] := by
  induction events with
  | nil => rfl
  | cons e rest ih => simp [pipeLoop, isEndItem, ih]

/-- C3: stream order and cardinality preservation — on a normally completing
input the rewriter emits exactly one output event per input event, in input
order, followed by exactly one termination; text deltas, unrecognized event
kinds and `toolcall_end` events without a partial snapshot are forwarded as
identical values. -/
theorem pipe_preserves_order_and_cardinality (tools : Option (List ToolDef))
    (events : List StreamEvent) :
    pipeAndNormalize tools events false =
        events.map (fun e => OutItem.ev (processEvent tools e)) ++ [OutItem.endMarker] ∧
      (∀ d : String, processEvent tools (.text_delta d) = .text_delta d) ∧
      (∀ (tag : String) (payload : JValue),
        processEvent tools (.otherEvent tag payload) = .otherEvent tag payload) ∧
      (∀ tc : Option ContentBlock,
        processEvent tools (.toolcall_end tc none) = .toolcall_end tc none) :=
  ⟨by simp [pipeAndNormalize, pipeLoop_eq_map], fun _ => rfl, fun _ _ => rfl, fun _ => rfl⟩

/-- C8: on upstream failure the wrapper emits no further events (the output
carries exactly one emission per delivered input event) and synthesizes no
`done`, but the output sequence is never closed — the termination marker is
absent, because the `.catch` handler only logs and never calls
`output.end()`, contradicting its own comment. -/
theorem pipe_error_leaves_output_unclosed (tools : Option (List ToolDef))
    (events : List StreamEvent) :
    (pipeAndNormalize tools events true).filter isEndItem = [] ∧
      (pipeAndNormalize tools events true).length = events.length := by
  constructor
  · simp [pipeAndNormalize, pipeLoop_no_end]
  · simp [pipeAndNormalize, pipeLoop_eq_map]

theorem mapSet_keys_nodup (m : List (String × String)) (k v : String)
    (h : (m.map Prod.fst).Nodup) : ((mapSet m k v).map Prod.fst).Nodup := by
  unfold mapSet
  split
  · have heq : (m.map (fun p => if p.1 = k then (k, v) else p)).map Prod.fst =
        m.map Prod.fst := by
      rw [List.map_map]
      apply List.map_congr_left
      intro p _
      by_cases hp : p.1 = k
      · simp [hp]
      · simp [hp]
    rw [heq]
    exact h
  · rename_i hnk
    rw [List.map_append]
    refine List.Nodup.append h (List.nodup_singleton k) ?_
    intro x hx hk2
    simp only [List.map_cons, List.map_nil, List.mem_singleton] at hk2
    subst hk2
    apply hnk
    obtain ⟨p, hp, hp2⟩ := List.mem_map.mp hx
    simp only [List.any_eq_true, decide_eq_true_eq]
    exact ⟨p, hp, hp2⟩

theorem aliasPairStep_keys_nodup (props : RecordJ) (m : List (String × String))
    (pair : String × String) (h : (m.map Prod.fst).Nodup) :
    ((aliasPairStep props m pair).map Prod.fst).Nodup := by
  unfold aliasPairStep
  split
  · split
    · exact mapSet_keys_nodup _ _ _ h
    · exact h
  · exact h

theorem foldl_aliasPairStep_keys_nodup (props : RecordJ)
    (pairs : List (String × String)) (m : List (String × String))
    (h : (m.map Prod.fst).Nodup) :
    ((pairs.foldl (aliasPairStep props) m).map Prod.fst).Nodup := by
  induction pairs generalizing m with
  | nil => exact h
  | cons p rest ih =>
    exact ih _ (aliasPairStep_keys_nodup props m p h)

theorem foldl_known_keys_nodup (props : RecordJ)
    (pairs : List (String × String)) (m : List (String × String))
    (h : (m.map Prod.fst).Nodup) :
    ((pairs.foldl
        (fun m2 p =>
          if hasKey props p.1 && hasKey props p.2 then mapSet m2 p.2 p.1 else m2)
        m).map Prod.fst).Nodup := by
  induction pairs generalizing m with
  | nil => exact h
  | cons p rest ih =>
    apply ih
    dsimp only
    split
    · exact mapSet_keys_nodup _ _ _ h
    · exact h

/-- C5 (amended): the extracted alias map keys each alias exactly once — every
alias is mapped to at most one canonical name (the overwrite semantics of
`Map.set` keep keys unique); the no-key-is-also-a-value half of the claim
fails (see the counterexample). -/
theorem extractAliases_keys_nodup (tool : ToolDef) :
    ((extractAliasesFromSchema tool).map Prod.fst).Nodup := by
  unfold extractAliasesFromSchema
  split
  · split
    · split
      · split
        · split
          · dsimp only
            split
            · exact foldl_known_keys_nodup _ _ _
                (foldl_aliasPairStep_keys_nodup _ _ _ List.nodup_nil)
            · exact foldl_aliasPairStep_keys_nodup _ _ _ List.nodup_nil
          · exact List.nodup_nil
        · exact List.nodup_nil
      · exact List.nodup_nil
    · exact List.nodup_nil
  · exact List.nodup_nil

theorem foldl_applyAliases_preserve (L : List (String × String)) (r : RecordJ)
    (b : Bool) (k : String)
    (hk1 : ∀ p ∈ L, p.1 ≠ k) (hk2 : ∀ p ∈ L, p.2 ≠ k) :
    lookupR (L.foldl applyAliasesStep (r, b)).1 k = lookupR r k := by
  induction L generalizing r b with
  | nil => rfl
  | cons p rest ih =>
    rw [List.foldl_cons]
    rcases hstep : applyAliasesStep (r, b) p with ⟨r2, b2⟩
    have hr2 : lookupR r2 k = lookupR r k := by
      unfold applyAliasesStep at hstep
      dsimp only at hstep
      split at hstep
      · injection hstep with h1 h2
        subst h1
        rw [lookupR_deleteKey_ne _ _ _ (hk1 p (List.mem_cons_self p rest)),
          lookupR_setKey_ne _ _ _ _ (hk2 p (List.mem_cons_self p rest))]
      · injection hstep with h1 h2
        subst h1
        rfl
    rw [ih r2 b2 (fun q hq => hk1 q (List.mem_cons_of_mem _ hq))
      (fun q hq => hk2 q (List.mem_cons_of_mem _ hq))]
    exact hr2

theorem foldl_applyAliases_fst_flag (L : List (String × String)) (r : RecordJ)
    (b : Bool) :
    (L.foldl applyAliasesStep (r, b)).1 = (L.foldl applyAliasesStep (r, false)).1 := by
  induction L generalizing r b with
  | nil => rfl
  | cons q qs ihq =>
    rw [List.foldl_cons, List.foldl_cons]
    by_cases hcond : (hasKey r q.1 && !(hasKey r q.2)) = true
    · simp only [applyAliasesStep, hcond, if_true]
    · simp only [applyAliasesStep, hcond, if_false, Bool.false_eq_true]
      exact ihq r b

/-- C6 (amended): the alias-substitution loop applies each pair sequentially
in map order; on a chain-free alias map (alias keys unique, canonical targets
unique, and no alias also a canonical target — which holds for the known-pair
fallback and for all two-property duplicate schemas) the input-level contract
holds for every pair whose alias is present and whose canonical key is absent:
the value is copied to the canonical key and the alias key is deleted. -/
theorem applyAliases_chain_free_correct (L : List (String × String)) (r : RecordJ)
    (a c : String)
    (hkn : (L.map Prod.fst).Nodup) (hvn : (L.map Prod.snd).Nodup)
    (hdisj : ∀ p ∈ L, ∀ q ∈ L, p.1 ≠ q.2)
    (hmem : (a, c) ∈ L) (ha : hasKey r a = true) (hc : hasKey r c = false) :
    lookupR (applyAliases L r).1 c = lookupR r a ∧
      hasKey (applyAliases L r).1 a = false := by
  unfold applyAliases
  induction L generalizing r with
  | nil => simp at hmem
  | cons p rest ih =>
    rw [List.foldl_cons]
    have hknr : (rest.map Prod.fst).Nodup := (List.nodup_cons.mp hkn).2
    have hkhd : p.1 ∉ rest.map Prod.fst := (List.nodup_cons.mp hkn).1
    have hvnr : (rest.map Prod.snd).Nodup := (List.nodup_cons.mp hvn).2
    have hvhd : p.2 ∉ rest.map Prod.snd := (List.nodup_cons.mp hvn).1
    rcases List.mem_cons.mp hmem with heq | hrest
    · -- the head pair is (a, c): the step fires
      have heq2 : p = (a, c) := heq.symm
      subst heq2
      have hfire : applyAliasesStep (r, false) (a, c) =
          (deleteKey (setKey r c ((lookupR r a).getD .null)) a, true) := by
        unfold applyAliasesStep
        simp [ha, hc]
      obtain ⟨va, hva⟩ := lookupR_eq_some_of_hasKey r a ha
      have hac : a ≠ c := hdisj (a, c) hmem (a, c) hmem
      have hr1c : lookupR (deleteKey (setKey r c ((lookupR r a).getD .null)) a) c =
          lookupR r a := by
        rw [lookupR_deleteKey_ne _ _ _ hac, lookupR_setKey_self, hva]
        rfl
      have hr1a : lookupR (deleteKey (setKey r c ((lookupR r a).getD .null)) a) a =
          none := lookupR_deleteKey_self _ _
      have hk1c : ∀ q ∈ rest, q.1 ≠ c := fun q hq =>
        hdisj q (List.mem_cons_of_mem _ hq) (a, c) hmem
      have hk2c : ∀ q ∈ rest, q.2 ≠ c := by
        intro q hq hcontra
        have hmm : q.2 ∈ rest.map Prod.snd := List.mem_map_of_mem Prod.snd hq
        rw [hcontra] at hmm
        exact hvhd hmm
      have hk1a : ∀ q ∈ rest, q.1 ≠ a := by
        intro q hq hcontra
        have hmm : q.1 ∈ rest.map Prod.fst := List.mem_map_of_mem Prod.fst hq
        rw [hcontra] at hmm
        exact hkhd hmm
      have hk2a : ∀ q ∈ rest, q.2 ≠ a := fun q hq hcontra =>
        (hdisj (a, c) hmem q (List.mem_cons_of_mem _ hq)) hcontra.symm
      constructor
      · rw [hfire, foldl_applyAliases_preserve rest _ _ c hk1c hk2c]
        exact hr1c
      · rw [hfire, hasKey, foldl_applyAliases_preserve rest _ _ a hk1a hk2a, hr1a]
        rfl
    · -- (a, c) is in the tail; the head step does not touch a or c
      have hpa : p.1 ≠ a := by
        intro hcontra
        have hmm : a ∈ rest.map Prod.fst := List.mem_map_of_mem Prod.fst hrest
        rw [← hcontra] at hmm
        exact hkhd hmm
      have hp2a : p.2 ≠ a :=
        fun hcontra => (hdisj (a, c) hmem p (List.mem_cons_self p rest)) hcontra.symm
      have hpc : p.1 ≠ c := hdisj p (List.mem_cons_self p rest) (a, c) hmem
      have hp2c : p.2 ≠ c := by
        intro hcontra
        have hmm : c ∈ rest.map Prod.snd := List.mem_map_of_mem Prod.snd hrest
        rw [← hcontra] at hmm
        exact hvhd hmm
      rcases hstep : applyAliasesStep (r, false) p with ⟨r2, b2⟩
      have hkeys : lookupR r2 a = lookupR r a ∧ lookupR r2 c = lookupR r c := by
        unfold applyAliasesStep at hstep
        dsimp only at hstep
        split at hstep
        · injection hstep with h1 h2
          subst h1
          constructor
          · rw [lookupR_deleteKey_ne _ _ _ hpa, lookupR_setKey_ne _ _ _ _ hp2a]
          · rw [lookupR_deleteKey_ne _ _ _ hpc, lookupR_setKey_ne _ _ _ _ hp2c]
        · injection hstep with h1 h2
          subst h1
          exact ⟨rfl, rfl⟩
      have hdisjr : ∀ p2 ∈ rest, ∀ q ∈ rest, p2.1 ≠ q.2 := fun p2 hp2 q hq =>
        hdisj p2 (List.mem_cons_of_mem _ hp2) q (List.mem_cons_of_mem _ hq)
      have ha2 : hasKey r2 a = true := by
        rw [hasKey, hkeys.1]
        exact ha
      have hc2 : hasKey r2 c = false := by
        rw [hasKey, hkeys.2]
        exact hc
      have hmain := ih r2 hknr hvnr hdisjr hrest ha2 hc2
      rw [foldl_applyAliases_fst_flag rest r2 b2]
      exact ⟨hmain.1.trans hkeys.1, hmain.2⟩

theorem heapGet_heapSet_self (h : Heap) (a : Nat) (o : HObj) :
    heapGet (heapSet h a o) a = some o := by
  induction h with
  | nil => simp [heapSet, heapGet]
  | cons p rest ih =>
    obtain ⟨a2, o2⟩ := p
    by_cases he : a2 = a <;> simp [heapSet, heapGet, he, ih]

theorem heapGet_heapSet_ne (h : Heap) (a a2 : Nat) (o : HObj) (hne : a ≠ a2) :
    heapGet (heapSet h a o) a2 = heapGet h a2 := by
  induction h with
  | nil => simp [heapSet, heapGet, hne]
  | cons p rest ih =>
    obtain ⟨a3, o3⟩ := p
    by_cases he : a3 = a
    · subst he
      simp [heapSet, heapGet, hne]
    · simp [heapSet, heapGet, he, ih]

theorem mem_keys_of_heapGet (h : Heap) (a : Nat) (o : HObj)
    (hg : heapGet h a = some o) : a ∈ h.map Prod.fst := by
  induction h with
  | nil => simp [heapGet] at hg
  | cons p rest ih =>
    obtain ⟨a2, o2⟩ := p
    by_cases he : a2 = a
    · subst he
      simp
    · rw [heapGet, if_neg he] at hg
      simp [ih hg]

theorem le_foldr_max (l : List Nat) (a : Nat) (ha : a ∈ l) :
    a ≤ l.foldr max 0 := by
  induction l with
  | nil => simp at ha
  | cons b rest ih =>
    rcases List.mem_cons.mp ha with rfl | hr
    · exact Nat.le_max_left _ _
    · exact Nat.le_trans (ih hr) (Nat.le_max_right _ _)

theorem freshAddr_ne_of_mem (h : Heap) (a : Nat) (hmem : a ∈ h.map Prod.fst) :
    freshAddr h ≠ a := by
  have := le_foldr_max (h.map Prod.fst) a hmem
  unfold freshAddr
  omega

theorem hvLookup_hvSet_ne (o : HObj) (k k2 : String) (v : HVal) (hne : k ≠ k2) :
    hvLookup (hvSet o k v) k2 = hvLookup o k2 := by
  induction o with
  | nil => simp [hvSet, hvLookup, hne]
  | cons p rest ih =>
    obtain ⟨k3, v3⟩ := p
    by_cases he : k3 = k
    · subst he
      simp [hvSet, hvLookup, hne]
    · simp [hvSet, hvLookup, he, ih]

/-- C4 (amended): every repair step returns a new top-level record or reports
no change, and the browser act-kind wrapping step never rewrites the object at
the top-level input address (the shallow copy receives all top-level writes),
provided the record's `request` field does not reference the record's own
address; objects nested inside are not protected (see the counterexample). -/
theorem browser_act_wrap_preserves_toplevel (h : Heap) (argsAddr : Nat)
    (record : HObj) (hg : heapGet h argsAddr = some record)
    (hnoself : ∀ p, hvLookup record "request" = some (.href p) → p ≠ argsAddr) :
    heapGet (browserActWrapHeap h argsAddr).1 argsAddr = some record := by
  have hfresh : freshAddr h ≠ argsAddr :=
    freshAddr_ne_of_mem h argsAddr (mem_keys_of_heapGet h _ _ hg)
  have hh1 : heapGet (heapSet h (freshAddr h) record) argsAddr = some record := by
    rw [heapGet_heapSet_ne _ _ _ _ hfresh]
    exact hg
  have hfresh1 : freshAddr (heapSet h (freshAddr h) record) ≠ argsAddr :=
    freshAddr_ne_of_mem _ argsAddr (mem_keys_of_heapGet _ _ _ hh1)
  unfold browserActWrapHeap
  rw [hg]
  simp only [Option.getD_some]
  split
  · -- act-kind wrapping branch
    split
    · -- request holds a reference: the shared object is mutated, not the input
      rename_i p heq
      have hp : p ≠ argsAddr := by
        apply hnoself
        rw [← heq, hvLookup_hvSet_ne record _ _ _ (by decide)]
      rw [heapGet_heapSet_ne _ _ _ _ hfresh]
      split
      · exact hh1
      · rw [heapGet_heapSet_ne _ _ _ _ hp]
        exact hh1
    · -- request missing or not an object: a fresh empty object is allocated
      rw [heapGet_heapSet_ne _ _ _ _ hfresh,
        heapGet_heapSet_ne _ _ _ _ hfresh1,
        heapGet_heapSet_ne _ _ _ _ hfresh1]
      exact hh1
  · exact hh1

/-- C1 counterexample: the composed repair transform is not idempotent — a
doubly nested envelope is unwrapped one level per application, so the second
application produces a different record than the first. -/
theorem normalizeToolCallArgs_not_idempotent_envelope :
    normalizeToolCallArgs
        (.obj [("name", .str "a"),
          ("arguments", .obj [("name", .str "b"), ("arguments", .obj [])])])
        (some "exec") none =
      some [("name", .str "b"), ("arguments", .obj [])] ∧
    normalizeToolCallArgs (.obj [("name", .str "b"), ("arguments", .obj [])])
        (some "exec") none = some [] ∧
    ([("name", JValue.str "b"), ("arguments", JValue.obj [])] : RecordJ) ≠ [] :=
  ⟨by decide, by decide, by decide⟩

/-- C2 counterexample: a schema-valid message record containing the declared
field `to` is not left unchanged — the message rule unconditionally renames
`to` to `target`, even though the schema declares `to` and finds no aliases. -/
theorem message_to_field_rewritten_on_valid_record :
    normalizeToolCallArgs
        (.obj [("action", .str "send"), ("message", .str "hi"),
          ("to", .str "123456789")])
        (some "message")
        (some [⟨"message", some (.obj [("type", .str "object"),
          ("properties", .obj
            [("action", .obj [("type", .str "string"),
                ("description", .str "The action to run")]),
             ("message", .obj [("type", .str "string"),
                ("description", .str "Message text")]),
             ("to", .obj [("type", .str "string"),
                ("description", .str "Target conversation id")])]),
          ("required", .arr [.str "action"])])⟩]) =
      some [("action", .str "send"), ("message", .str "hi"),
        ("target", .str "123456789")] ∧
    ([("action", JValue.str "send"), ("message", JValue.str "hi"),
        ("target", JValue.str "123456789")] : RecordJ) ≠
      [("action", JValue.str "send"), ("message", JValue.str "hi"),
        ("to", JValue.str "123456789")] :=
  ⟨by decide, by decide⟩

/-- Witness for C2 (amended): a concrete valid gateway record is returned
unchanged. -/
theorem gateway_valid_action_unchanged_witness :
    normalizeToolCallArgs (.obj [("action", .str "restart")]) (some "gateway")
      none = some [("action", .str "restart")] :=
  gateway_valid_action_unchanged [("action", .str "restart")] (by decide)
    (by decide) (by decide) (by decide) (by decide) (by decide) (by decide)

/-- C4 counterexample: the act-kind wrapping step mutates the nested `request`
object of the input record in place — after the step, the object shared with
the input carries a new `kind` field. -/
theorem browser_act_wrap_mutates_nested_request :
    heapGet (browserActWrapHeap
        [(0, [("action", HVal.prim (.str "click")), ("request", HVal.href 1)]),
         (1, [("sel", HVal.prim (.str "x"))])] 0).1 1 =
      some [("sel", HVal.prim (.str "x")), ("kind", HVal.prim (.str "click"))] ∧
    heapGet
        [(0, [("action", HVal.prim (.str "click")), ("request", HVal.href 1)]),
         (1, [("sel", HVal.prim (.str "x"))])] 1 =
      some [("sel", HVal.prim (.str "x"))] ∧
    some [("sel", HVal.prim (.str "x")), ("kind", HVal.prim (.str "click"))] ≠
      some [("sel", HVal.prim (.str "x"))] :=
  ⟨by decide, by decide, by decide⟩

/-- Witness for C4 (amended): on the same concrete heap, the object at the
top-level input address is unchanged by the step. -/
theorem browser_act_wrap_preserves_toplevel_witness :
    heapGet (browserActWrapHeap
        [(0, [("action", HVal.prim (.str "click")), ("request", HVal.href 1)]),
         (1, [("sel", HVal.prim (.str "x"))])] 0).1 0 =
      some [("action", HVal.prim (.str "click")), ("request", HVal.href 1)] :=
  browser_act_wrap_preserves_toplevel _ 0
    [("action", HVal.prim (.str "click")), ("request", HVal.href 1)]
    (by decide)
    (by
      intro p hp
      simp [hvLookup] at hp
      omega)

/-- C5 counterexample: on a schema with three structurally identical
properties `x`, `yz`, `uvw`, the extracted map is `yz → x, uvw → yz`, in which
`yz` occurs both as an alias key and as a canonical value — the map is not
cycle-free in the claimed sense. -/
theorem extractAliases_key_also_value :
    extractAliasesFromSchema ⟨"t", some (.obj [("type", .str "object"),
        ("properties", .obj [("x", .obj [("type", .str "string")]),
          ("yz", .obj [("type", .str "string")]),
          ("uvw", .obj [("type", .str "string")])])])⟩ =
      [("yz", "x"), ("uvw", "yz")] ∧
    "yz" ∈ ([("yz", "x"), ("uvw", "yz")].map Prod.fst) ∧
    "yz" ∈ ([("yz", "x"), ("uvw", "yz")].map Prod.snd) :=
  ⟨by decide, by decide, by decide⟩

/-- C6 counterexample: with the chained alias map `yz → x, uvw → yz` of the
three-identical-property schema, a record holding both `yz` and `uvw` has the
canonical key `yz` (present in the input with value `"a"`) rewritten to the
alias `uvw`'s value `"b"` — the never-overwrite half of the claim fails at
the input level. -/
theorem alias_chain_overwrites_canonical :
    normalizeToolParamsFromSchema (.obj [("yz", .str "a"), ("uvw", .str "b")])
        (some (.obj [("type", .str "object"),
          ("properties", .obj [("x", .obj [("type", .str "string")]),
            ("yz", .obj [("type", .str "string")]),
            ("uvw", .obj [("type", .str "string")])])]))
        (some ⟨"t", some (.obj [("type", .str "object"),
          ("properties", .obj [("x", .obj [("type", .str "string")]),
            ("yz", .obj [("type", .str "string")]),
            ("uvw", .obj [("type", .str "string")])])])⟩) =
      some [("x", .str "a"), ("yz", .str "b")] ∧
    ("uvw", "yz") ∈ extractAliasesFromSchema ⟨"t", some (.obj [("type", .str "object"),
        ("properties", .obj [("x", .obj [("type", .str "string")]),
          ("yz", .obj [("type", .str "string")]),
          ("uvw", .obj [("type", .str "string")])])])⟩ ∧
    lookupR [("yz", JValue.str "a"), ("uvw", JValue.str "b")] "yz" =
      some (.str "a") :=
  ⟨by decide, by decide, by decide⟩

/-- Witness for C6 (amended): the known pair `file_path → path` on a record
holding only the alias. -/
theorem applyAliases_chain_free_correct_witness :
    lookupR (applyAliases [("file_path", "path")]
        [("file_path", JValue.str "v")]).1 "path" = some (JValue.str "v") ∧
    hasKey (applyAliases [("file_path", "path")]
        [("file_path", JValue.str "v")]).1 "file_path" = false := by
  have h := applyAliases_chain_free_correct [("file_path", "path")]
    [("file_path", JValue.str "v")] "file_path" "path" (by decide) (by decide)
    (by decide) (by decide) (by decide) (by decide)
  exact ⟨h.1.trans (by decide), h.2⟩

/-- C7: primitives and `null` pass through untouched (`undefined` result, the
original block kept), but a top-level array does not — `typeof [] ===
"object"`, so the array flows into the record path, is spread into an
index-keyed object, and the tool-call block is rewritten with that object. -/
theorem array_payload_not_passed_through :
    normalizeToolCallArgs (.arr [.str "hi"]) (some "exec") none =
      some [("0", .str "hi")] ∧
    normalizeMessageToolCalls ⟨[.toolCall "1" "exec" (.arr [.str "hi"])]⟩ none =
      ⟨[.toolCall "1" "exec" (.obj [("0", .str "hi")])]⟩ ∧
    normalizeToolCallArgs (.str "x") (some "exec") none = none ∧
    normalizeToolCallArgs .null (some "exec") none = none ∧
    normalizeToolCallArgs (.num 3) (some "exec") none = none :=
  ⟨by decide, by decide, by decide, by decide, by decide⟩

/-- Witness for C9: the universal part instantiated at the five-digit numeric
target `"123"`. -/
theorem message_target_truncation_cleanup_witness :
    normalizeToolCallArgs (.obj [("target", .str "14760?")]) (some "message")
        none = some [] ∧
    normalizeToolCallArgs (.obj [("target", .str "123")]) (some "message")
        none = some [("target", .str "123")] :=
  message_target_truncation_cleanup "123" (by decide) (by decide) (by decide)

/-- C10: discriminator promotion for the gateway tool — `{ mode: "restart" }`
with no `action` key normalizes to `{ action: "restart" }` with `mode`
removed, and the donor value `"start"` maps to `"restart"` through the
semantic alias table. -/
theorem gateway_discriminator_promotion :
    normalizeToolCallArgs (.obj [("mode", .str "restart")]) (some "gateway")
        none = some [("action", .str "restart")] ∧
    normalizeActionValue "start" = some "restart" ∧
    normalizeToolCallArgs (.obj [("mode", .str "start")]) (some "gateway")
        none = some [("action", .str "restart")] :=
  ⟨by decide, by decide, by decide⟩
